import Mathlib

/-!
# Verification of the LLMC container SDK (llmc-format/sdk-python)

Shallow embedding of the LLMC container codec from `src/llmc_python`
(`parser.py`, `writer.py`, `types.py`), together with the metadata
normalizer of the near-identical LLMD variant (`src/llmd_python/parser.py`).

Modelling conventions:
* Python byte streams are `List Nat` (one `Nat` per byte); stream reads
  return the available prefix, exactly like `BinaryIO.read`.
* The YAML text (de)serializer and the SQLite engine are the black-box
  capabilities declared by the spec.  They are modelled by concrete,
  executable codecs (`yamlEnc`/`yamlDec`, `sqliteEnc`/`sqliteDec`) whose
  only used property is that decoding inverts encoding; the relational
  content of the store section is modelled as typed rows (`WMsgRow`,
  `AltMsgRow`, ...), one constructor of `SqliteStore` per schema dialect,
  since the dialect probe in `_parse_messages` observes exactly which of
  the two fixed queries the store can answer.
* Python's `json.dumps`/`json.loads` on a TEXT column are modelled by
  `JsonCol`: a stored JSON text is either the encoding of a well-formed
  value or a malformed string; `loads` fails exactly on the malformed
  ones.  Python truthiness of the stored text is `JsonCol.truthy`
  (`json.dumps` output is never empty).
* Exceptions: `LError` are the library's typed errors
  (`LLMCFormatError`, `LLMCParseError`, `LLMCValidationError`); `Exn`
  additionally carries the untyped Python exceptions (`struct.error`,
  `json.JSONDecodeError`) that the outermost `parse_stream` /
  `write_stream` handlers re-wrap.
-/

namespace LLMC

/-- A JSON object payload, modelled as a flat string-to-string mapping.
Claims never inspect the inside of a JSON `metadata` object, only whether
it is empty (Python falsy) and whether it round-trips. -/
abbrev Obj := List (String × String)

/-- A TEXT column holding JSON: either `json.dumps` output of a well-formed
value, or a malformed text on which `json.loads` raises. -/
inductive JsonCol (α : Type) where
  | valid (v : α)
  | invalid (raw : String)
deriving DecidableEq

/-- Python truthiness of the stored text (`if row[k]:`): `json.dumps`
output is a nonempty string, a malformed text is truthy iff nonempty. -/
def JsonCol.truthy : JsonCol α → Bool
  | .valid _ => true
  | .invalid raw => decide (raw ≠ "")

/-- `json.loads` on the stored text; `none` models `json.JSONDecodeError`. -/
def JsonCol.loads : JsonCol α → Option α
  | .valid v => some v
  | .invalid _ => none

/-- The library's typed errors (`types.py`): `LLMCFormatError`,
`LLMCParseError`, `LLMCValidationError`. -/
inductive LError where
  | formatError (msg : String)
  | parseError (msg : String)
  | validationError (msg : String)
deriving DecidableEq

/-- An exception in flight inside `parse_stream`/`write_stream`: either one
of the library's typed errors, or an untyped Python exception
(`struct.error`, `json.JSONDecodeError`, ...) that the outermost handler
re-wraps. -/
inductive Exn where
  | typed (e : LError)
  | untyped (msg : String)
deriving DecidableEq

/-- A participant record of the JavaScript SDK dialect: a dict possibly
carrying `role`/`name`/`identifier` keys (`_parse_metadata`). -/
structure PRec where
  role : Option String
  name : Option String
  identifier : Option String
deriving DecidableEq

/-- A value of the raw metadata mapping returned by `yaml.safe_load`. -/
inductive MVal where
  | str (s : String)
  | strList (l : List String)
  | pList (l : List PRec)
  | obj (o : Obj)
deriving DecidableEq

/-- The raw metadata mapping (a Python dict: keys are unique, insertion
order is preserved). -/
abbrev RawMeta := List (String × MVal)

/-- `data[k]` / `data.get(k)`. -/
def getK (d : RawMeta) (k : String) : Option MVal :=
  (d.find? (fun p => p.1 == k)).map (fun p => p.2)

/-- `k in data`. -/
def hasK (d : RawMeta) (k : String) : Bool :=
  (getK d k).isSome

/-- `data[k] = v`: overwrite in place when the key exists (Python dicts
keep the original position), append otherwise. -/
def setK (d : RawMeta) (k : String) (v : MVal) : RawMeta :=
  if hasK d k then d.map (fun p => if p.1 == k then (k, v) else p)
  else d ++ [(k, v)]

/-- `data.pop(k)` (the removal part): Python dict keys are unique, so
removing every pair with that key models removing the key. -/
def popK (d : RawMeta) (k : String) : RawMeta :=
  d.filter (fun p => ¬ p.1 == k)

/-- `parser.py` lines 159-160: `if "created" in data and "created_at" not
in data: data["created_at"] = data.pop("created")`. -/
def aliasCreated (d : RawMeta) : RawMeta :=
  match getK d "created", getK d "created_at" with
  | some v, none => setK (popK d "created") "created_at" v
  | _, _ => d

/-- `llmd_python/parser.py` lines 152-153: `if "llmd_version" in data and
"version" not in data: data["version"] = data.pop("llmd_version")`.
Only the LLMD parser performs this step. -/
def aliasLlmdVersion (d : RawMeta) : RawMeta :=
  match getK d "llmd_version", getK d "version" with
  | some v, none => setK (popK d "llmd_version") "version" v
  | _, _ => d

/-- `parser.py` lines 162-175: default `participants` when absent; when it
is a nonempty list whose first element is a dict, project to the role
strings if any record carries a `role`. -/
def fixParticipants (d : RawMeta) : RawMeta :=
  match getK d "participants" with
  | none => setK d "participants" (.strList ["user", "assistant"])
  | some (.pList (p0 :: rest)) =>
    let roles := (p0 :: rest).filterMap PRec.role
    if roles.isEmpty then d else setK d "participants" (.strList roles)
  | some _ => d

/-- `parser.py` lines 177-181: required-field check, first failure wins. -/
def requireFields (d : RawMeta) : Except LError RawMeta :=
  if ¬ hasK d "version" then
    .error (.formatError ("Missing required field: version"))
  else if ¬ hasK d "created_at" then
    .error (.formatError ("Missing required field: created_at"))
  else if ¬ hasK d "participants" then
    .error (.formatError ("Missing required field: participants"))
  else .ok d

/-- `LLMCParser._parse_metadata` after `yaml.safe_load`: the LLMC variant
aliases only `created`; it has no `llmd_version` handling. -/
def llmcParseMetadata (d : RawMeta) : Except LError RawMeta :=
  requireFields (fixParticipants (aliasCreated d))

/-- `LLMDParser._parse_metadata` after `yaml.safe_load`: aliases
`llmd_version` (lines 152-153), then `created`, then participants. -/
def llmdParseMetadata (d : RawMeta) : Except LError RawMeta :=
  requireFields (fixParticipants (aliasCreated (aliasLlmdVersion d)))

/-! ## Canonical entities (`types.py`) -/

/-- `LLMCMessage`: `parent_id`, `attachments`, `metadata` are
`NotRequired` keys of the TypedDict, modelled as `Option`. -/
structure Msg where
  id : String
  role : String
  content : String
  timestamp : String
  parent_id : Option String := none
  attachments : Option (List String) := none
  metadata : Option Obj := none
deriving DecidableEq

/-- `LLMCAttachment`: attachment `data` is a byte string. -/
structure Attachment where
  id : String
  filename : String
  content_type : String
  size : Int
  data : List Nat
  created_at : Option String := none
  metadata : Option Obj := none
deriving DecidableEq

/-- `LLMCConversation` as returned by `parse_stream`: the `attachments`
key is set only when the parsed attachment list is nonempty. -/
structure Conversation where
  metadata : RawMeta
  messages : List Msg
  attachments : Option (List Attachment) := none
deriving DecidableEq

/-! ## The embedded relational store

The SQLite engine is a black-box capability.  A store section is one of
the two dialects of §4.3: the write schema created by
`LLMCWriter._create_schema`, or the alternate (JavaScript SDK) schema
with integer surrogate keys, a `sequence` column and an
`attachments.message_id` join column.  `_parse_messages` probes the
dialect by attempting the surrogate-key query first and falling back on
`sqlite3.OperationalError`; in the model the dialect is carried by the
constructor, so the probe is a match on it. -/

/-- A row of the write-schema `messages` table: `id`, `role`, `content`,
`timestamp` are `NOT NULL` TEXT columns; `attachments` and `metadata`
are nullable TEXT columns holding JSON. -/
structure WMsgRow where
  id : String
  role : String
  content : String
  timestamp : String
  parent_id : Option String
  attachments : Option (JsonCol (List String))
  metadata : Option (JsonCol Obj)
deriving DecidableEq

/-- A row of the write-schema `attachments` table. -/
structure WAttRow where
  id : String
  filename : String
  content_type : String
  size : Int
  data : List Nat
  created_at : Option String
  metadata : Option (JsonCol Obj)
deriving DecidableEq

/-- A row of the alternate-dialect `messages` table: integer surrogate
key and explicit `sequence` ordering column. -/
structure AltMsgRow where
  key : Nat
  sequence : Nat
  role : String
  content : String
  timestamp : String
  parent : Option Nat
  metadata : Option (JsonCol Obj)
deriving DecidableEq

/-- A row of the alternate-dialect `attachments` table: integer surrogate
key, `message_id` join column and a `checksum` column in place of the
write schema's `created_at`. -/
structure AltAttRow where
  key : Nat
  filename : String
  content_type : String
  size : Int
  data : List Nat
  message_id : Nat
  checksum : Option String
  metadata : Option (JsonCol Obj)
deriving DecidableEq

/-- A store section, as the queries of `_parse_messages` /
`_parse_attachments` observe it, together with its `PRAGMA
application_id` value. -/
inductive SqliteStore where
  | wschema (appId : Int) (msgs : List WMsgRow) (atts : List WAttRow)
  | altschema (appId : Int) (msgs : List AltMsgRow) (atts : List AltAttRow)
deriving DecidableEq

/-- `SQLITE_APPLICATION_ID = 0x4C4C4D43` (`types.py`). -/
def SQLITE_APPLICATION_ID : Int := 0x4C4C4D43

def SqliteStore.appId : SqliteStore → Int
  | .wschema i _ _ => i
  | .altschema i _ _ => i

/-! ## Reading messages and attachments -/

/-- `f"msg_{row[0]}"`: string id synthesized from the surrogate key. -/
def synthMsgId (k : Nat) : String := "msg_" ++ Nat.repr k

/-- `GROUP_CONCAT(a.id)` over the `LEFT JOIN attachments a ON
a.message_id = m.id` group of one message row: NULL when the group is
empty, else the comma-joined decimal keys.  Modelled at `List Char`
level (the SQL engine produces the text). -/
def groupConcatIds (atts : List AltAttRow) (k : Nat) : Option (List Char) :=
  let ids := (atts.filter (fun a => a.message_id == k)).map
    (fun a => (Nat.repr a.key).data)
  if ids.isEmpty then none else some ([','].intercalate ids)

/-- One row of the alternate-dialect message query
(`_parse_messages`, lines 236-259): synthesize ids, split the
`GROUP_CONCAT` column on commas, parse `metadata` leniently. -/
def altRowToMsg (atts : List AltAttRow) (r : AltMsgRow) : Msg :=
  let base : Msg :=
    { id := synthMsgId r.key, role := r.role, content := r.content,
      timestamp := r.timestamp, parent_id := r.parent.map synthMsgId }
  let withAtts :=
    match groupConcatIds atts r.key with
    | some cs =>
      if cs.isEmpty then base
      else
        let ids := ((cs.splitOn ',').filter (fun a => ¬ a.isEmpty)).map
          (fun a => "att_" ++ String.mk a)
        if ids.isEmpty then base else { base with attachments := some ids }
    | none => base
  match r.metadata with
  | some jc =>
    if jc.truthy then
      match jc.loads with
      | some o => { withAtts with metadata := some o }
      | none => withAtts
    else withAtts
  | none => withAtts

/-- Lexicographic `ORDER BY m.sequence, m.timestamp` of the alternate
query; ties keep storage order (stable sort). -/
def altLe (a b : AltMsgRow) : Prop :=
  a.sequence < b.sequence ∨ (a.sequence = b.sequence ∧ a.timestamp ≤ b.timestamp)

instance : DecidableRel altLe := fun a b =>
  decidable_of_iff (a.sequence < b.sequence ∨ (a.sequence = b.sequence ∧
    a.timestamp.toList ≤ b.timestamp.toList)) (by
      unfold altLe
      rw [String.le_iff_toList_le])

/-- The alternate-dialect message query (succeeds; nothing in its row
loop can raise). -/
def parseMessagesAlt (msgs : List AltMsgRow) (atts : List AltAttRow) : List Msg :=
  (List.insertionSort altLe msgs).map (altRowToMsg atts)

/-- `ORDER BY timestamp` of the write-schema fallback query; ties keep
storage order (stable sort). -/
def wTimeLe (a b : WMsgRow) : Prop := a.timestamp ≤ b.timestamp

instance : DecidableRel wTimeLe := fun a b =>
  decidable_of_iff (a.timestamp.toList ≤ b.timestamp.toList)
    String.le_iff_toList_le.symm

/-- One row of the write-schema fallback query (`_parse_messages`, lines
273-294): `json.loads` on the `attachments` and `metadata` columns is
NOT guarded there, so a malformed truthy value raises
`json.JSONDecodeError` (an untyped exception). -/
def wRowToMsg (r : WMsgRow) : Except Exn Msg := do
  let base : Msg :=
    { id := r.id, role := r.role, content := r.content,
      timestamp := r.timestamp, parent_id := r.parent_id }
  let withAtts ←
    match r.attachments with
    | some jc =>
      if jc.truthy then
        match jc.loads with
        | some l => pure { base with attachments := some l }
        | none => throw (.untyped ("json.decoder.JSONDecodeError"))
      else pure base
    | none => pure base
  match r.metadata with
  | some jc =>
    if jc.truthy then
      match jc.loads with
      | some o => pure { withAtts with metadata := some o }
      | none => throw (.untyped ("json.decoder.JSONDecodeError"))
    else pure withAtts
  | none => pure withAtts

def parseMessagesW (msgs : List WMsgRow) : Except Exn (List Msg) :=
  (List.insertionSort wTimeLe msgs).mapM wRowToMsg

/-- `_parse_messages`: the surrogate-key query succeeds only on the
alternate dialect (the write schema has no `sequence` or `message_id`
column, raising `sqlite3.OperationalError`), in which case the
write-schema query runs instead. -/
def parseMessages : SqliteStore → Except Exn (List Msg)
  | .altschema _ m a => .ok (parseMessagesAlt m a)
  | .wschema _ m _ => parseMessagesW m

/-- One row of the alternate-dialect attachment query
(`_parse_attachments`, lines 311-327): synthesized id, lenient
`metadata`; the `checksum` column (row[5]) is read but never used. -/
def altRowToAtt (r : AltAttRow) : Attachment :=
  let base : Attachment :=
    { id := "att_" ++ Nat.repr r.key, filename := r.filename,
      content_type := r.content_type, size := r.size, data := r.data }
  match r.metadata with
  | some jc =>
    if jc.truthy then
      match jc.loads with
      | some o => { base with metadata := some o }
      | none => base
    else base
  | none => base

/-- One row of the write-schema attachment query (`_parse_attachments`,
lines 340-356): `created_at` is set when truthy; `json.loads` on
`metadata` is NOT guarded there. -/
def wRowToAtt (r : WAttRow) : Except Exn Attachment := do
  let base : Attachment :=
    { id := r.id, filename := r.filename, content_type := r.content_type,
      size := r.size, data := r.data }
  let withCreated :=
    match r.created_at with
    | some s => if s ≠ "" then { base with created_at := some s } else base
    | none => base
  match r.metadata with
  | some jc =>
    if jc.truthy then
      match jc.loads with
      | some o => pure { withCreated with metadata := some o }
      | none => throw (.untyped ("json.decoder.JSONDecodeError"))
    else pure withCreated
  | none => pure withCreated

/-- `_parse_attachments`: the JavaScript-SDK query names the `checksum`
column, absent from the write schema, so it succeeds exactly on the
alternate dialect and the write-schema query runs otherwise. -/
def parseAttachments : SqliteStore → Except Exn (List Attachment)
  | .altschema _ _ a => .ok (a.map altRowToAtt)
  | .wschema _ _ a => a.mapM wRowToAtt

/-- `_parse_sqlite_data`: check the application id, then parse messages
and attachments. -/
def parseSqliteData (st : SqliteStore) : Except Exn (List Msg × List Attachment) := do
  if st.appId ≠ SQLITE_APPLICATION_ID then
    throw (.typed (.formatError ("Invalid SQLite application ID")))
  let m ← parseMessages st
  let a ← parseAttachments st
  pure (m, a)

/-! ## Header codec (`_read_header` / `_write_header`) -/

/-- `LLMC_MAGIC = b"LLMC"`. -/
def LLMC_MAGIC : List Nat := [76, 76, 77, 67]

/-- `LLMC_VERSION = 1`. -/
def LLMC_VERSION : Nat := 1

/-- `LLMC_FORMAT_VERSION = 1`. -/
def LLMC_FORMAT_VERSION : Nat := 1

/-- Little-endian value of a byte list (`struct.unpack`). -/
def leNum : List Nat → Nat
  | [] => 0
  | b :: rest => b + 256 * leNum rest

/-- `struct.pack("<I", n)`. -/
def le32 (n : Nat) : List Nat :=
  [n % 256, n / 256 % 256, n / 256 ^ 2 % 256, n / 256 ^ 3 % 256]

/-- `struct.pack("<Q", n)`. -/
def le64 (n : Nat) : List Nat :=
  [n % 256, n / 256 % 256, n / 256 ^ 2 % 256, n / 256 ^ 3 % 256,
   n / 256 ^ 4 % 256, n / 256 ^ 5 % 256, n / 256 ^ 6 % 256, n / 256 ^ 7 % 256]

/-- The four fields `_read_header` returns. -/
structure HeaderFields where
  version : Nat
  format_version : Nat
  yaml_length : Nat
  sqlite_offset : Nat
deriving DecidableEq

/-- `_write_header` (writer.py lines 122-142): 32 bytes.  The caller
supplies the exact length and offset. -/
def writeHeader (yaml_length sqlite_offset : Nat) : List Nat :=
  LLMC_MAGIC ++ [LLMC_VERSION] ++ [0, 0, 0] ++ le32 LLMC_FORMAT_VERSION ++
    le32 yaml_length ++ le64 sqlite_offset ++ [0] ++ [0, 0, 0, 0, 0, 0, 0]

/-- `_read_header` (parser.py lines 95-132) on a byte stream starting at
position 0.  `stream.read(n)` returns the available prefix; the explicit
`raise LLMCFormatError` sites are typed, while a short buffer handed to
`struct.unpack` raises the untyped `struct.error`.  The 3 reserved
bytes, the encryption-flags byte and the 7 trailing reserved bytes are
read but never inspected (reads past the end succeed with fewer
bytes). -/
def readHeader (b : List Nat) : Except Exn HeaderFields :=
  if b.take 4 ≠ LLMC_MAGIC then
    .error (.typed (.formatError ("Invalid magic bytes")))
  else if b.length < 5 then
    .error (.untyped ("struct.error: unpack requires a buffer of 1 bytes"))
  else
    let version := b.getD 4 0
    if version ≠ LLMC_VERSION then
      .error (.typed (.formatError ("Unsupported version")))
    else if b.length < 12 then
      .error (.untyped ("struct.error: unpack requires a buffer of 4 bytes"))
    else
      let format_version := leNum ((b.drop 8).take 4)
      if format_version ≠ 1 then
        .error (.typed (.formatError ("Unsupported format version")))
      else if b.length < 16 then
        .error (.untyped ("struct.error: unpack requires a buffer of 4 bytes"))
      else
        let yaml_length := leNum ((b.drop 12).take 4)
        if b.length < 24 then
          .error (.untyped ("struct.error: unpack requires a buffer of 8 bytes"))
        else
          let sqlite_offset := leNum ((b.drop 16).take 8)
          .ok ⟨version, format_version, yaml_length, sqlite_offset⟩

/-! ## Byte-serialization of the two capability payloads

`yaml.dump`/`yaml.safe_load` and the SQLite file format are black
boxes; the container claims only need concrete byte encodings whose
decoders invert them.  These codecs stand in for those capabilities:
a string is its length-prefixed list of character codepoints, lists are
length-prefixed, options and sums are tagged. -/

def encStr (s : String) : List Nat :=
  s.data.length :: s.data.map Char.toNat

def decStr : List Nat → Option (String × List Nat)
  | [] => none
  | n :: rest =>
    if n ≤ rest.length then
      some (String.mk ((rest.take n).map Char.ofNat), rest.drop n)
    else none

def encNum (n : Nat) : List Nat := [n]

def decNum : List Nat → Option (Nat × List Nat)
  | [] => none
  | n :: rest => some (n, rest)

def encInt : Int → List Nat
  | .ofNat n => [0, n]
  | .negSucc n => [1, n]

def decInt : List Nat → Option (Int × List Nat)
  | 0 :: n :: rest => some (.ofNat n, rest)
  | 1 :: n :: rest => some (.negSucc n, rest)
  | _ => none

def encList (f : α → List Nat) (l : List α) : List Nat :=
  l.length :: (l.map f).flatten

def decListAux (dec : List Nat → Option (α × List Nat)) :
    Nat → List Nat → Option (List α × List Nat)
  | 0, rest => some ([], rest)
  | n + 1, rest => do
    let (a, r1) ← dec rest
    let (as, r2) ← decListAux dec n r1
    pure (a :: as, r2)

def decList (dec : List Nat → Option (α × List Nat)) :
    List Nat → Option (List α × List Nat)
  | [] => none
  | n :: rest => decListAux dec n rest

def encOpt (f : α → List Nat) : Option α → List Nat
  | none => [0]
  | some a => 1 :: f a

def decOpt (dec : List Nat → Option (α × List Nat)) :
    List Nat → Option (Option α × List Nat)
  | 0 :: rest => some (none, rest)
  | 1 :: rest => (dec rest).map (fun p => (some p.1, p.2))
  | _ => none

def encPair (f : α → List Nat) (g : β → List Nat) (p : α × β) : List Nat :=
  f p.1 ++ g p.2

def decPair (da : List Nat → Option (α × List Nat))
    (db : List Nat → Option (β × List Nat)) (b : List Nat) :
    Option ((α × β) × List Nat) := do
  let (x, r1) ← da b
  let (y, r2) ← db r1
  pure ((x, y), r2)

def encObj (o : Obj) : List Nat := encList (encPair encStr encStr) o

def decObj : List Nat → Option (Obj × List Nat) :=
  decList (decPair decStr decStr)

def encJsonCol (f : α → List Nat) : JsonCol α → List Nat
  | .valid v => 0 :: f v
  | .invalid raw => 1 :: encStr raw

def decJsonCol (dec : List Nat → Option (α × List Nat)) :
    List Nat → Option (JsonCol α × List Nat)
  | 0 :: rest => (dec rest).map (fun p => (.valid p.1, p.2))
  | 1 :: rest => (decStr rest).map (fun p => (.invalid p.1, p.2))
  | _ => none

def encPRec (p : PRec) : List Nat :=
  encOpt encStr p.role ++ encOpt encStr p.name ++ encOpt encStr p.identifier

def decPRec (b : List Nat) : Option (PRec × List Nat) := do
  let (r, b1) ← decOpt decStr b
  let (n, b2) ← decOpt decStr b1
  let (i, b3) ← decOpt decStr b2
  pure (⟨r, n, i⟩, b3)

def encMVal : MVal → List Nat
  | .str s => 0 :: encStr s
  | .strList l => 1 :: encList encStr l
  | .pList l => 2 :: encList encPRec l
  | .obj o => 3 :: encObj o

def decMVal : List Nat → Option (MVal × List Nat)
  | 0 :: rest => (decStr rest).map (fun p => (.str p.1, p.2))
  | 1 :: rest => (decList decStr rest).map (fun p => (.strList p.1, p.2))
  | 2 :: rest => (decList decPRec rest).map (fun p => (.pList p.1, p.2))
  | 3 :: rest => (decObj rest).map (fun p => (.obj p.1, p.2))
  | _ => none

/-- The YAML capability: `yaml.dump(metadata, sort_keys=False)` rendered
to bytes.  Its output never starts with NUL or whitespace, so the
`lstrip`/`strip` of `_read_yaml_section` is the identity on it. -/
def yamlEnc (m : RawMeta) : List Nat :=
  encList (encPair encStr encMVal) m

/-- The YAML capability on read: UTF-8 decode, strip, `yaml.safe_load`;
`none` covers both a YAML error and a non-mapping document. -/
def yamlDec (b : List Nat) : Option RawMeta :=
  match decList (decPair decStr decMVal) b with
  | some (m, []) => some m
  | _ => none

def encWMsgRow (r : WMsgRow) : List Nat :=
  encStr r.id ++ encStr r.role ++ encStr r.content ++ encStr r.timestamp ++
    encOpt encStr r.parent_id ++
    encOpt (encJsonCol (encList encStr)) r.attachments ++
    encOpt (encJsonCol encObj) r.metadata

def decWMsgRow (b : List Nat) : Option (WMsgRow × List Nat) := do
  let (i, b1) ← decStr b
  let (ro, b2) ← decStr b1
  let (c, b3) ← decStr b2
  let (t, b4) ← decStr b3
  let (p, b5) ← decOpt decStr b4
  let (a, b6) ← decOpt (decJsonCol (decList decStr)) b5
  let (m, b7) ← decOpt (decJsonCol decObj) b6
  pure (⟨i, ro, c, t, p, a, m⟩, b7)

def encWAttRow (r : WAttRow) : List Nat :=
  encStr r.id ++ encStr r.filename ++ encStr r.content_type ++
    encInt r.size ++ encList encNum r.data ++ encOpt encStr r.created_at ++
    encOpt (encJsonCol encObj) r.metadata

def decWAttRow (b : List Nat) : Option (WAttRow × List Nat) := do
  let (i, b1) ← decStr b
  let (f, b2) ← decStr b1
  let (c, b3) ← decStr b2
  let (s, b4) ← decInt b3
  let (d, b5) ← decList decNum b4
  let (cr, b6) ← decOpt decStr b5
  let (m, b7) ← decOpt (decJsonCol decObj) b6
  pure (⟨i, f, c, s, d, cr, m⟩, b7)

def encAltMsgRow (r : AltMsgRow) : List Nat :=
  encNum r.key ++ encNum r.sequence ++ encStr r.role ++ encStr r.content ++
    encStr r.timestamp ++ encOpt encNum r.parent ++
    encOpt (encJsonCol encObj) r.metadata

def decAltMsgRow (b : List Nat) : Option (AltMsgRow × List Nat) := do
  let (k, b1) ← decNum b
  let (sq, b2) ← decNum b1
  let (ro, b3) ← decStr b2
  let (c, b4) ← decStr b3
  let (t, b5) ← decStr b4
  let (p, b6) ← decOpt decNum b5
  let (m, b7) ← decOpt (decJsonCol decObj) b6
  pure (⟨k, sq, ro, c, t, p, m⟩, b7)

def encAltAttRow (r : AltAttRow) : List Nat :=
  encNum r.key ++ encStr r.filename ++ encStr r.content_type ++
    encInt r.size ++ encList encNum r.data ++ encNum r.message_id ++
    encOpt encStr r.checksum ++ encOpt (encJsonCol encObj) r.metadata

def decAltAttRow (b : List Nat) : Option (AltAttRow × List Nat) := do
  let (k, b1) ← decNum b
  let (f, b2) ← decStr b1
  let (c, b3) ← decStr b2
  let (s, b4) ← decInt b3
  let (d, b5) ← decList decNum b4
  let (mi, b6) ← decNum b5
  let (ch, b7) ← decOpt decStr b6
  let (m, b8) ← decOpt (decJsonCol decObj) b7
  pure (⟨k, f, c, s, d, mi, ch, m⟩, b8)

/-- The SQLite capability on write: the store rendered to bytes. -/
def sqliteEnc : SqliteStore → List Nat
  | .wschema i m a =>
    0 :: encInt i ++ encList encWMsgRow m ++ encList encWAttRow a
  | .altschema i m a =>
    1 :: encInt i ++ encList encAltMsgRow m ++ encList encAltAttRow a

/-- The SQLite capability on read: `none` models bytes that are not a
database (`sqlite3.Error`, re-raised as `LLMCFormatError` by
`_parse_sqlite_data`). -/
def sqliteDec (b : List Nat) : Option SqliteStore :=
  match b with
  | 0 :: rest =>
    (do
      let (i, b1) ← decInt rest
      let (m, b2) ← decList decWMsgRow b1
      let (a, b3) ← decList decWAttRow b2
      pure ((.wschema i m a : SqliteStore), b3)) |>.bind
        (fun p => if p.2.isEmpty then some p.1 else none)
  | 1 :: rest =>
    (do
      let (i, b1) ← decInt rest
      let (m, b2) ← decList decAltMsgRow b1
      let (a, b3) ← decList decAltAttRow b2
      pure ((.altschema i m a : SqliteStore), b3)) |>.bind
        (fun p => if p.2.isEmpty then some p.1 else none)
  | _ => none

/-! ## Writer (`writer.py`) -/

/-- A message as handed to `write_stream`: a dict whose keys may be
missing, which is exactly what `_validate_conversation` checks.  The
declared `LLMCMessage` TypedDict is unenforced at runtime. -/
structure MsgD where
  id : Option String := none
  role : Option String := none
  content : Option String := none
  timestamp : Option String := none
  parent_id : Option String := none
  attachments : Option (List String) := none
  metadata : Option Obj := none
deriving DecidableEq

/-- A conversation as handed to `write_stream`: the `metadata` and
`messages` keys may be missing. -/
structure ConvD where
  metadata : Option RawMeta := none
  messages : Option (List MsgD) := none
  attachments : Option (List Attachment) := none
deriving DecidableEq

/-- The required message fields, in the order `_validate_conversation`
checks them. -/
def validateMsgs : Nat → List MsgD → Option String
  | _, [] => none
  | i, m :: rest =>
    if m.id.isNone then
      some ("Message " ++ toString i ++ " missing required field: id")
    else if m.role.isNone then
      some ("Message " ++ toString i ++ " missing required field: role")
    else if m.content.isNone then
      some ("Message " ++ toString i ++ " missing required field: content")
    else if m.timestamp.isNone then
      some ("Message " ++ toString i ++ " missing required field: timestamp")
    else validateMsgs (i + 1) rest

/-- `_validate_conversation` (writer.py lines 90-120): returns the
message of the first failing check, `none` when all pass.  Checks run
in source order and stop at the first failure. -/
def validateConversation (c : ConvD) : Option String :=
  match c.metadata, c.messages with
  | none, _ => some ("Missing metadata section")
  | some _, none => some ("Missing messages section")
  | some md, some ms =>
    if ¬ hasK md "version" then
      some ("Missing required metadata field: version")
    else if ¬ hasK md "created_at" then
      some ("Missing required metadata field: created_at")
    else if ¬ hasK md "participants" then
      some ("Missing required metadata field: participants")
    else validateMsgs 0 ms

/-- `_insert_messages`: the stored `attachments`/`metadata` columns are
`json.dumps` of the value when the key is present and truthy (nonempty),
NULL otherwise.  The `getD ""` defaults are dead code: validation has
already established the four required keys. -/
def msgToRow (m : MsgD) : WMsgRow where
  id := m.id.getD ""
  role := m.role.getD ""
  content := m.content.getD ""
  timestamp := m.timestamp.getD ""
  parent_id := m.parent_id
  attachments :=
    match m.attachments with
    | some l => if l.isEmpty then none else some (.valid l)
    | none => none
  metadata :=
    match m.metadata with
    | some o => if o.isEmpty then none else some (.valid o)
    | none => none

/-- `_insert_attachments`: all columns verbatim; `metadata` as JSON when
present and truthy. -/
def attToRow (a : Attachment) : WAttRow where
  id := a.id
  filename := a.filename
  content_type := a.content_type
  size := a.size
  data := a.data
  created_at := a.created_at
  metadata :=
    match a.metadata with
    | some o => if o.isEmpty then none else some (.valid o)
    | none => none

/-- `_generate_sqlite`: build the write-schema store.  `messages.id` and
`attachments.id` are `PRIMARY KEY` columns, so a duplicate insert raises
`sqlite3.IntegrityError`, caught by the `except sqlite3.Error` clause
and re-raised as `LLMCFormatError`. -/
def generateSqlite (ms : List MsgD) (atts : Option (List Attachment)) :
    Except Exn SqliteStore :=
  let mrows := ms.map msgToRow
  if ¬ (mrows.map WMsgRow.id).Nodup then
    .error (.typed (.formatError
      ("SQLite generation error: UNIQUE constraint failed: messages.id")))
  else
    let arows := (atts.getD []).map attToRow
    if ¬ (arows.map WAttRow.id).Nodup then
      .error (.typed (.formatError
        ("SQLite generation error: UNIQUE constraint failed: attachments.id")))
    else .ok (.wschema SQLITE_APPLICATION_ID mrows arows)

/-- `write_stream` body before the outermost handler: validate, render
metadata, render the store, compute `sqlite_offset = 32 + len(yaml)`,
then emit header, metadata block, store bytes.  `struct.pack("<I", n)`
raises the untyped `struct.error` when the length exceeds 4 bytes. -/
def writeStreamE (c : ConvD) : Except Exn (List Nat) :=
  match validateConversation c with
  | some msg => .error (.typed (.validationError msg))
  | none =>
    match c.metadata, c.messages with
    | some md, some ms => do
      let yamlBytes := yamlEnc md
      let st ← generateSqlite ms c.attachments
      if yamlBytes.length ≥ 2 ^ 32 then
        throw (.untyped ("struct.error: argument out of range"))
      else
        pure (writeHeader yamlBytes.length (32 + yamlBytes.length) ++
          yamlBytes ++ sqliteEnc st)
    | _, _ => .error (.untyped ("unreachable: validation passed"))

/-- The outermost `except` clause of `write_stream`: typed errors pass
through, anything else is wrapped into `LLMCFormatError`. -/
def wrapWrite : Except Exn α → Except LError α
  | .ok a => .ok a
  | .error (.typed e) => .error e
  | .error (.untyped m) =>
    .error (.formatError ("Unexpected error during writing: " ++ m))

/-- `LLMCWriter.write_stream`. -/
def writeStream (c : ConvD) : Except LError (List Nat) :=
  wrapWrite (writeStreamE c)

/-! ## Parser top level (`parse_stream`) -/

/-- `parse_stream` body before the outermost handler.  The stream
position after `_read_header` is `min 32 len`; `_read_yaml_section`
reads exactly `yaml_length` bytes or raises `LLMCFormatError`; then the
stream seeks to `sqlite_offset` (the offset field is authoritative) and
reads the remainder. -/
def parseStreamE (input : List Nat) : Except Exn Conversation := do
  let h ← readHeader input
  let pos := min 32 input.length
  let yamlBytes := (input.drop pos).take h.yaml_length
  if yamlBytes.length ≠ h.yaml_length then
    throw (.typed (.formatError ("Incomplete YAML section")))
  match yamlDec yamlBytes with
  | none => throw (.typed (.formatError ("YAML metadata must be a dictionary")))
  | some raw =>
    match llmcParseMetadata raw with
    | .error e => throw (.typed e)
    | .ok md =>
      match sqliteDec (input.drop h.sqlite_offset) with
      | none => throw (.typed (.formatError ("SQLite parsing error")))
      | some st => do
        let (ms, atts) ← parseSqliteData st
        pure { metadata := md, messages := ms,
               attachments := if atts.isEmpty then none else some atts }

/-- The outermost `except` clause of `parse_stream`: typed errors pass
through, anything else is wrapped into `LLMCParseError`. -/
def wrapParse : Except Exn α → Except LError α
  | .ok a => .ok a
  | .error (.typed e) => .error e
  | .error (.untyped m) =>
    .error (.parseError ("Unexpected error during parsing: " ++ m))

/-- `LLMCParser.parse_stream`. -/
def parseStream (input : List Nat) : Except LError Conversation :=
  wrapParse (parseStreamE input)

/-! ## Round-trip lemmas for the capability codecs -/

theorem charOfNat_toNat (c : Char) : Char.ofNat c.toNat = c := by
  have h : c.toNat.isValidChar := c.valid
  rw [Char.ofNat, dif_pos h]
  apply Char.ext
  apply UInt32.ext
  simp [Char.ofNatAux, Char.toNat, BitVec.toNat_ofNatLt, UInt32.toNat]

theorem decStr_enc (s : String) (r : List Nat) :
    decStr (encStr s ++ r) = some (s, r) := by
  have hle : s.data.length ≤ (s.data.map Char.toNat ++ r).length := by
    simp
  have htake : (s.data.map Char.toNat ++ r).take s.data.length =
      s.data.map Char.toNat := by
    rw [← List.length_map s.data Char.toNat, List.take_left]
  have hdrop : (s.data.map Char.toNat ++ r).drop s.data.length = r := by
    rw [← List.length_map s.data Char.toNat, List.drop_left]
  simp only [encStr, decStr, List.cons_append, if_pos hle, htake, hdrop,
    List.map_map]
  have hmap : s.data.map (Char.ofNat ∘ Char.toNat) = s.data := by
    rw [show Char.ofNat ∘ Char.toNat = id from funext charOfNat_toNat,
      List.map_id]
  rw [hmap]

theorem decNum_enc (n : Nat) (r : List Nat) :
    decNum (encNum n ++ r) = some (n, r) := rfl

theorem decInt_enc (i : Int) (r : List Nat) :
    decInt (encInt i ++ r) = some (i, r) := by
  cases i <;> rfl

theorem decListAux_enc {dec : List Nat → Option (α × List Nat)}
    {f : α → List Nat} (H : ∀ a r, dec (f a ++ r) = some (a, r)) :
    ∀ (l : List α) (r : List Nat),
      decListAux dec l.length ((l.map f).flatten ++ r) = some (l, r) := by
  intro l
  induction l with
  | nil => intro r; simp [decListAux]
  | cons a as ih =>
    intro r
    simp only [List.map_cons, List.flatten_cons, List.length_cons,
      List.append_assoc, decListAux, H a, Option.bind_eq_bind,
      Option.some_bind, ih r, Option.pure_def]

theorem decList_enc {dec : List Nat → Option (α × List Nat)}
    {f : α → List Nat} (H : ∀ a r, dec (f a ++ r) = some (a, r))
    (l : List α) (r : List Nat) :
    decList dec (encList f l ++ r) = some (l, r) := by
  simp only [encList, List.cons_append, decList]
  exact decListAux_enc H l r

theorem decOpt_enc {dec : List Nat → Option (α × List Nat)}
    {f : α → List Nat} (H : ∀ a r, dec (f a ++ r) = some (a, r))
    (o : Option α) (r : List Nat) :
    decOpt dec (encOpt f o ++ r) = some (o, r) := by
  cases o with
  | none => rfl
  | some a => simp [encOpt, decOpt, H a]

theorem decPair_enc {da : List Nat → Option (α × List Nat)}
    {db : List Nat → Option (β × List Nat)}
    {f : α → List Nat} {g : β → List Nat}
    (Ha : ∀ a r, da (f a ++ r) = some (a, r))
    (Hb : ∀ b r, db (g b ++ r) = some (b, r))
    (p : α × β) (r : List Nat) :
    decPair da db (encPair f g p ++ r) = some (p, r) := by
  simp [encPair, decPair, List.append_assoc, Ha, Hb]

theorem decObj_enc (o : Obj) (r : List Nat) :
    decObj (encObj o ++ r) = some (o, r) :=
  decList_enc (decPair_enc decStr_enc decStr_enc) o r

theorem decJsonCol_enc {dec : List Nat → Option (α × List Nat)}
    {f : α → List Nat} (H : ∀ a r, dec (f a ++ r) = some (a, r))
    (j : JsonCol α) (r : List Nat) :
    decJsonCol dec (encJsonCol f j ++ r) = some (j, r) := by
  cases j with
  | valid v => simp [encJsonCol, decJsonCol, H v]
  | invalid raw => simp [encJsonCol, decJsonCol, decStr_enc]

theorem decPRec_enc (p : PRec) (r : List Nat) :
    decPRec (encPRec p ++ r) = some (p, r) := by
  simp [encPRec, decPRec, List.append_assoc, decOpt_enc decStr_enc]

theorem decMVal_enc (v : MVal) (r : List Nat) :
    decMVal (encMVal v ++ r) = some (v, r) := by
  cases v with
  | str s => simp [encMVal, decMVal, decStr_enc]
  | strList l => simp [encMVal, decMVal, decList_enc decStr_enc]
  | pList l => simp [encMVal, decMVal, decList_enc decPRec_enc]
  | obj o => simp [encMVal, decMVal, decObj_enc]

theorem yamlDec_enc (m : RawMeta) : yamlDec (yamlEnc m) = some m := by
  have h := decList_enc (decPair_enc decStr_enc decMVal_enc) m []
  rw [List.append_nil] at h
  simp [yamlDec, yamlEnc, h]

theorem decWMsgRow_enc (x : WMsgRow) (r : List Nat) :
    decWMsgRow (encWMsgRow x ++ r) = some (x, r) := by
  simp [encWMsgRow, decWMsgRow, List.append_assoc, decStr_enc,
    decOpt_enc decStr_enc,
    decOpt_enc (decJsonCol_enc (decList_enc decStr_enc)),
    decOpt_enc (decJsonCol_enc decObj_enc)]

theorem decWAttRow_enc (x : WAttRow) (r : List Nat) :
    decWAttRow (encWAttRow x ++ r) = some (x, r) := by
  simp [encWAttRow, decWAttRow, List.append_assoc, decStr_enc, decInt_enc,
    decList_enc decNum_enc, decOpt_enc decStr_enc,
    decOpt_enc (decJsonCol_enc decObj_enc)]

theorem decAltMsgRow_enc (x : AltMsgRow) (r : List Nat) :
    decAltMsgRow (encAltMsgRow x ++ r) = some (x, r) := by
  simp [encAltMsgRow, decAltMsgRow, List.append_assoc, decStr_enc,
    decNum_enc, decOpt_enc decNum_enc,
    decOpt_enc (decJsonCol_enc decObj_enc)]

theorem decAltAttRow_enc (x : AltAttRow) (r : List Nat) :
    decAltAttRow (encAltAttRow x ++ r) = some (x, r) := by
  simp [encAltAttRow, decAltAttRow, List.append_assoc, decStr_enc,
    decInt_enc, decNum_enc, decList_enc decNum_enc, decOpt_enc decStr_enc,
    decOpt_enc (decJsonCol_enc decObj_enc)]

theorem sqliteDec_enc (st : SqliteStore) : sqliteDec (sqliteEnc st) = some st := by
  cases st with
  | wschema i m a =>
    have h : decInt (encInt i ++ (encList encWMsgRow m ++
        (encList encWAttRow a ++ []))) = some (i, encList encWMsgRow m ++
        (encList encWAttRow a ++ [])) := decInt_enc i _
    have h2 := decList_enc decWAttRow_enc a []
    rw [List.append_nil] at h2
    simp only [sqliteEnc, sqliteDec, List.cons_append, List.append_assoc,
      List.append_nil] at *
    simp [h, h2, decList_enc decWMsgRow_enc]
  | altschema i m a =>
    have h : decInt (encInt i ++ (encList encAltMsgRow m ++
        (encList encAltAttRow a ++ []))) = some (i, encList encAltMsgRow m ++
        (encList encAltAttRow a ++ [])) := decInt_enc i _
    have h2 := decList_enc decAltAttRow_enc a []
    rw [List.append_nil] at h2
    simp only [sqliteEnc, sqliteDec, List.cons_append, List.append_assoc,
      List.append_nil] at *
    simp [h, h2, decList_enc decAltMsgRow_enc]

/-! ## Header codec lemmas -/

theorem leNum_le32 {n : Nat} (h : n < 2 ^ 32) : leNum (le32 n) = n := by
  simp [le32, leNum]
  omega

theorem leNum_le64 {n : Nat} (h : n < 2 ^ 64) : leNum (le64 n) = n := by
  simp [le64, leNum]
  omega

theorem writeHeader_length (a b : Nat) : (writeHeader a b).length = 32 := by
  simp [writeHeader, le32, le64, LLMC_MAGIC]

/-- Decoding the header `_write_header` produced recovers the version,
format revision, metadata length and store offset the writer supplied. -/
theorem readHeader_writeHeader {yl so : Nat} (h1 : yl < 2 ^ 32)
    (h2 : so < 2 ^ 64) (rest : List Nat) :
    readHeader (writeHeader yl so ++ rest) = .ok ⟨1, 1, yl, so⟩ := by
  have e : writeHeader yl so ++ rest =
      76 :: 76 :: 77 :: 67 :: 1 :: 0 :: 0 :: 0 :: 1 :: 0 :: 0 :: 0 ::
      (yl % 256) :: (yl / 256 % 256) :: (yl / 256 ^ 2 % 256) :: (yl / 256 ^ 3 % 256) ::
      (so % 256) :: (so / 256 % 256) :: (so / 256 ^ 2 % 256) :: (so / 256 ^ 3 % 256) ::
      (so / 256 ^ 4 % 256) :: (so / 256 ^ 5 % 256) :: (so / 256 ^ 6 % 256) :: (so / 256 ^ 7 % 256) ::
      0 :: 0 :: 0 :: 0 :: 0 :: 0 :: 0 :: 0 :: rest := by
    simp [writeHeader, le32, le64, LLMC_MAGIC, LLMC_VERSION, LLMC_FORMAT_VERSION]
  rw [e]
  simp only [readHeader, LLMC_MAGIC, LLMC_VERSION]
  norm_num [List.getD, leNum]
  split_ifs <;> try omega
  simp only [Except.ok.injEq, HeaderFields.mk.injEq]
  refine ⟨trivial, trivial, ?_, ?_⟩ <;> omega

/-! ## Dictionary-operation lemmas -/

theorem getK_popK_ne (d : RawMeta) {k k' : String} (h : k' ≠ k) :
    getK (popK d k) k' = getK d k' := by
  unfold popK getK
  induction d with
  | nil => simp
  | cons p rest ih =>
    by_cases hp : p.1 == k
    · have hp2 : ¬ (p.1 == k') := by
        simp only [beq_iff_eq] at hp ⊢
        rw [hp]
        exact fun e => h e.symm
      rw [List.filter_cons_of_neg (by simp [hp]),
        List.find?_cons_of_neg _ (by simpa using hp2)]
      exact ih
    · rw [List.filter_cons_of_pos (by simp [hp])]
      by_cases hq : p.1 == k'
      · simp only [List.find?, hq, cond_true]
      · simp only [List.find?, hq, cond_false]
        exact ih

theorem getK_popK_self (d : RawMeta) (k : String) :
    getK (popK d k) k = none := by
  unfold popK getK
  induction d with
  | nil => simp
  | cons p rest ih =>
    by_cases hp : p.1 == k
    · rw [List.filter_cons_of_neg (by simp [hp])]
      exact ih
    · rw [List.filter_cons_of_pos (by simp [hp])]
      simp only [List.find?, hp, cond_false]
      exact ih

theorem getK_setK_self (d : RawMeta) (k : String) (v : MVal) :
    getK (setK d k v) k = some v := by
  unfold setK
  by_cases h : hasK d k
  · simp only [if_pos h]
    unfold hasK getK at *
    induction d with
    | nil => simp [List.find?] at h
    | cons p rest ih =>
      by_cases hp : p.1 == k
      · simp only [List.map_cons, if_pos hp]
        simp [List.find?]
      · simp only [List.map_cons, if_neg hp]
        simp only [List.find?, hp, cond_false] at h ⊢
        exact ih h
  · simp only [if_neg h]
    unfold hasK getK at *
    induction d with
    | nil => simp [List.find?]
    | cons p rest ih =>
      by_cases hp : p.1 == k
      · exfalso
        apply h
        simp [List.find?, hp]
      · simp only [List.cons_append, List.find?, hp, cond_false] at h ⊢
        exact ih h

theorem getK_setK_ne (d : RawMeta) {k k' : String} (v : MVal) (h : k' ≠ k) :
    getK (setK d k v) k' = getK d k' := by
  have hkk : ¬ ((k : String) == k') := by
    simp only [beq_iff_eq]
    exact fun e => h e.symm
  unfold setK
  by_cases hh : hasK d k
  · simp only [if_pos hh]
    unfold getK
    clear hh
    induction d with
    | nil => simp
    | cons p rest ih =>
      by_cases hp : p.1 == k
      · have hp2 : ¬ (p.1 == k') := by
          simp only [beq_iff_eq] at hp ⊢
          rw [hp]
          exact fun e => h e.symm
        simp only [List.map_cons, if_pos hp, List.find?, hkk, hp2,
          cond_false]
        exact ih
      · simp only [List.map_cons, if_neg hp, List.find?]
        by_cases hq : p.1 == k'
        · simp only [hq, cond_true]
        · simp only [hq, cond_false]
          exact ih
  · simp only [if_neg hh]
    unfold getK
    clear hh
    induction d with
    | nil => simp [List.find?, hkk]
    | cons p rest ih =>
      by_cases hq : p.1 == k'
      · simp only [List.cons_append, List.find?, hq, cond_true]
      · simp only [List.cons_append, List.find?, hq, cond_false]
        exact ih

/-! ## Normalizer, validation and row-inverse lemmas -/

theorem aliasCreated_of_created_at {d : RawMeta} {w : MVal}
    (h : getK d "created_at" = some w) : aliasCreated d = d := by
  unfold aliasCreated
  rw [h]
  rcases getK d "created" with _ | v <;> rfl

theorem fixParticipants_strList {d : RawMeta} {ps : List String}
    (h : getK d "participants" = some (.strList ps)) : fixParticipants d = d := by
  unfold fixParticipants
  rw [h]

theorem requireFields_ok {d : RawMeta} (h1 : hasK d "version")
    (h2 : hasK d "created_at") (h3 : hasK d "participants") :
    requireFields d = .ok d := by
  unfold requireFields
  simp [h1, h2, h3]

theorem llmcParseMetadata_fixed {d : RawMeta} {w : MVal} {ps : List String}
    (h1 : hasK d "version") (h2 : getK d "created_at" = some w)
    (h3 : getK d "participants" = some (.strList ps)) :
    llmcParseMetadata d = .ok d := by
  unfold llmcParseMetadata
  rw [aliasCreated_of_created_at h2, fixParticipants_strList h3,
    requireFields_ok h1 (by simp [hasK, h2]) (by simp [hasK, h3])]

theorem mapM_ok_of_forall {f : α → Except Exn β} {g : α → β} :
    ∀ l : List α, (∀ a ∈ l, f a = .ok (g a)) → l.mapM f = .ok (l.map g) := by
  intro l
  induction l with
  | nil => intro _; rfl
  | cons a as ih =>
    intro H
    rw [List.map_cons, List.mapM_cons, H a (by simp),
      ih (fun x hx => H x (by simp [hx]))]
    rfl

theorem mapM_ne_ok {f : α → Except Exn β} {l : List α} {a : α}
    (ha : a ∈ l) (hf : ∀ x, f a ≠ .ok x) :
    ∀ out, l.mapM f ≠ .ok out := by
  induction l with
  | nil => simp at ha
  | cons b bs ih =>
    intro out
    rw [List.mapM_cons]
    rcases List.mem_cons.mp ha with rfl | hmem
    · rcases hfb : f a with e | x
      · simp [hfb, Bind.bind, Except.bind]
      · exact absurd hfb (hf x)
    · rcases hfb : f b with e | x
      · simp [hfb, Bind.bind, Except.bind]
      · simp only [hfb, Bind.bind, Except.bind]
        rcases hrest : bs.mapM f with e2 | l2
        · simp [hrest, Except.bind]
        · exact absurd hrest (ih hmem l2)

/-- The canonical message injected into the writer's dict form. -/
def msgD (m : Msg) : MsgD :=
  { id := some m.id, role := some m.role, content := some m.content,
    timestamp := some m.timestamp, parent_id := m.parent_id,
    attachments := m.attachments, metadata := m.metadata }

/-- The canonical conversation injected into the writer's dict form. -/
def convD (md : RawMeta) (ms : List Msg) (atts : Option (List Attachment)) : ConvD :=
  { metadata := some md, messages := some (ms.map msgD), attachments := atts }

theorem wRowToMsg_msgToRow (m : Msg) (ha : m.attachments ≠ some [])
    (hm : m.metadata ≠ some []) : wRowToMsg (msgToRow (msgD m)) = .ok m := by
  rcases m with ⟨i, ro, c, t, p, a, md⟩
  simp only [msgD, msgToRow, wRowToMsg, Option.getD_some]
  rcases a with _ | l
  · rcases md with _ | o
    · rfl
    · have : ¬ o.isEmpty := by
        simpa [List.isEmpty_iff] using fun e => hm (by simp [e])
      simp [this, JsonCol.truthy, JsonCol.loads, Bind.bind, Except.bind, Pure.pure, Except.pure]
  · have hl : ¬ l.isEmpty := by
      simpa [List.isEmpty_iff] using fun e => ha (by simp [e])
    rcases md with _ | o
    · simp [hl, JsonCol.truthy, JsonCol.loads, Bind.bind, Except.bind, Pure.pure, Except.pure]
    · have ho : ¬ o.isEmpty := by
        simpa [List.isEmpty_iff] using fun e => hm (by simp [e])
      simp [hl, ho, JsonCol.truthy, JsonCol.loads, Bind.bind, Except.bind, Pure.pure, Except.pure]

theorem wRowToAtt_attToRow (a : Attachment) (hm : a.metadata ≠ some [])
    (hc : a.created_at ≠ some "") : wRowToAtt (attToRow a) = .ok a := by
  rcases a with ⟨i, f, ct, sz, dt, cr, md⟩
  simp only [attToRow, wRowToAtt]
  rcases cr with _ | s
  · rcases md with _ | o
    · rfl
    · have : ¬ o.isEmpty := by
        simpa [List.isEmpty_iff] using fun e => hm (by simp [e])
      simp [this, JsonCol.truthy, JsonCol.loads, Bind.bind, Except.bind, Pure.pure, Except.pure]
  · have hs : s ≠ "" := fun e => hc (by simp [e])
    rcases md with _ | o
    · simp [hs, Bind.bind, Except.bind, Pure.pure, Except.pure]
    · have : ¬ o.isEmpty := by
        simpa [List.isEmpty_iff] using fun e => hm (by simp [e])
      simp [hs, this, JsonCol.truthy, JsonCol.loads, Bind.bind, Except.bind, Pure.pure, Except.pure]

theorem validateMsgs_map_msgD : ∀ (k : Nat) (ms : List Msg),
    validateMsgs k (ms.map msgD) = none := by
  intro k ms
  induction ms generalizing k with
  | nil => rfl
  | cons m rest ih => simp [validateMsgs, msgD, ih]

theorem validateConversation_convD {md : RawMeta} {ms : List Msg}
    {atts : Option (List Attachment)} (h1 : hasK md "version")
    (h2 : hasK md "created_at") (h3 : hasK md "participants") :
    validateConversation (convD md ms atts) = none := by
  simp [validateConversation, convD, h1, h2, h3, validateMsgs_map_msgD]


theorem mapM_map_ok {f : β → Except Exn α} {h : α → β} {l : List α}
    (H : ∀ a ∈ l, f (h a) = .ok a) : (l.map h).mapM f = .ok l := by
  induction l with
  | nil => rfl
  | cons a as ih =>
    rw [List.map_cons, List.mapM_cons, H a (by simp),
      ih (fun x hx => H x (by simp [hx]))]
    rfl

theorem drop32_header (a b : Nat) (t : List Nat) :
    (writeHeader a b ++ t).drop 32 = t := by
  rw [← writeHeader_length a b, List.drop_left]

theorem drop_offset_header (a b : Nat) (y t : List Nat) :
    (writeHeader a b ++ (y ++ t)).drop (32 + y.length) = t := by
  rw [← List.append_assoc]
  have h : (writeHeader a b ++ y).length = 32 + y.length := by
    rw [List.length_append, writeHeader_length]
  rw [← h, List.drop_left]

set_option maxHeartbeats 2000000 in
theorem roundTrip (md : RawMeta) (ms : List Msg) (atts : Option (List Attachment))
    (hv : hasK md "version") (hc : getK md "created_at" = some w)
    (hp : getK md "participants" = some (.strList ps))
    (hyl : (yamlEnc md).length < 2 ^ 32)
    (hsort : ms.Pairwise (fun a b => a.timestamp ≤ b.timestamp))
    (hmid : (ms.map Msg.id).Nodup)
    (haid : ((atts.getD []).map Attachment.id).Nodup)
    (hmsg : ∀ m ∈ ms, m.attachments ≠ some [] ∧ m.metadata ≠ some [])
    (hatt : ∀ a ∈ atts.getD [], a.metadata ≠ some [] ∧ a.created_at ≠ some "")
    (hne : ∀ l, atts = some l → l ≠ []) :
    (writeStream (convD md ms atts)).bind parseStream =
      .ok ⟨md, ms, atts⟩ := by
  -- the write side
  have hval := @validateConversation_convD md ms atts hv
    (by simp [hasK, hc]) (by simp [hasK, hp])
  have hmid2 : (List.map (WMsgRow.id ∘ msgToRow ∘ msgD) ms).Nodup := by
    have e : List.map (WMsgRow.id ∘ msgToRow ∘ msgD) ms = ms.map Msg.id := by
      simp [Function.comp, msgToRow, msgD]
    rw [e]
    exact hmid
  have haid2 : (List.map (WAttRow.id ∘ attToRow) (atts.getD [])).Nodup := by
    have e : List.map (WAttRow.id ∘ attToRow) (atts.getD []) =
        (atts.getD []).map Attachment.id := by
      simp [Function.comp, attToRow]
    rw [e]
    exact haid
  have hgen : generateSqlite (ms.map msgD) atts =
      .ok (.wschema SQLITE_APPLICATION_ID (ms.map (msgToRow ∘ msgD))
        ((atts.getD []).map attToRow)) := by
    simp [generateSqlite, List.map_map, hmid2, haid2]
  have hwrite : writeStream (convD md ms atts) =
      .ok (writeHeader (yamlEnc md).length (32 + (yamlEnc md).length) ++
        yamlEnc md ++ sqliteEnc (.wschema SQLITE_APPLICATION_ID
          (ms.map (msgToRow ∘ msgD)) ((atts.getD []).map attToRow))) := by
    unfold writeStream writeStreamE
    rw [hval]
    simp only [convD]
    simp only [hgen, Bind.bind, Except.bind]
    rw [if_neg (by omega : ¬ (yamlEnc md).length ≥ 2 ^ 32)]
    rfl
  rw [hwrite]
  -- the read side
  have hsorted : List.Sorted wTimeLe (ms.map (msgToRow ∘ msgD)) := by
    refine List.Pairwise.map _ ?_ hsort
    intro a b hab
    simpa [wTimeLe, msgToRow, msgD] using hab
  set st : SqliteStore := .wschema SQLITE_APPLICATION_ID
    (ms.map (msgToRow ∘ msgD)) ((atts.getD []).map attToRow) with hst
  have hmsgs : parseMessages st = .ok ms := by
    rw [hst]
    show parseMessagesW (ms.map (msgToRow ∘ msgD)) = .ok ms
    unfold parseMessagesW
    rw [List.Sorted.insertionSort_eq hsorted]
    exact mapM_map_ok (fun m hm => wRowToMsg_msgToRow m (hmsg m hm).1 (hmsg m hm).2)
  have hatts : parseAttachments st = .ok (atts.getD []) := by
    rw [hst]
    show ((atts.getD []).map attToRow).mapM wRowToAtt = .ok (atts.getD [])
    exact mapM_map_ok (fun a ha => wRowToAtt_attToRow a (hatt a ha).1 (hatt a ha).2)
  have hsql : parseSqliteData st = .ok (ms, atts.getD []) := by
    unfold parseSqliteData
    rw [hmsgs, hatts]
    have happ : st.appId = SQLITE_APPLICATION_ID := rfl
    simp [happ, Bind.bind, Except.bind, Pure.pure, Except.pure]
  have hdec : sqliteDec (sqliteEnc st) = some st := sqliteDec_enc st
  set sq : List Nat := sqliteEnc st with hsq
  set Y : List Nat := yamlEnc md with hY
  have hydec : yamlDec Y = some md := yamlDec_enc md
  have hmeta : llmcParseMetadata md = .ok md := llmcParseMetadata_fixed hv hc hp
  show parseStream _ = _
  unfold parseStream parseStreamE
  rw [List.append_assoc, readHeader_writeHeader hyl (by omega) (Y ++ sq)]
  simp only [Bind.bind, Except.bind]
  have hlen : (writeHeader Y.length (32 + Y.length) ++ (Y ++ sq)).length =
      32 + (Y.length + sq.length) := by
    simp [List.length_append, writeHeader_length]
  have hmin : min 32 (32 + (Y.length + sq.length)) = 32 := by omega
  rw [hlen, hmin, drop32_header, List.take_left, if_neg (by simp), hydec]
  simp only [hmeta, drop_offset_header, hdec, hsql, Pure.pure, Except.pure,
    wrapParse]
  rcases atts with _ | l
  · rfl
  · simp [List.isEmpty_iff, hne l rfl]


/-! ## Claim C1 -/

/-- A minimal metadata mapping passing §4.5 validation. -/
def c1meta : RawMeta :=
  [("version", .str "0.1"), ("created_at", .str "2024-01-15T10:30:00Z"),
   ("participants", .strList ["user", "assistant"])]

/-- A conversation passing §4.5 validation whose messages are NOT in
timestamp order. -/
def c1cex : ConvD :=
  { metadata := some c1meta,
    messages := some
      [{ id := some "m1", role := some "user", content := some "x",
         timestamp := some "B" },
       { id := some "m2", role := some "assistant", content := some "y",
         timestamp := some "A" }] }

set_option maxRecDepth 10000 in
/-- **C1, counterexample**: the conversation `c1cex` passes the pre-write
validation of §4.5, yet `parse(write(c1cex))` returns its two messages in
the opposite order (the write-schema read path orders by the `timestamp`
column, not by input order), so the round-trip claim fails as stated. -/
theorem C1_order_counterexample :
    validateConversation c1cex = none ∧
    (c1cex.messages.getD []).map MsgD.id = [some "m1", some "m2"] ∧
    ((writeStream c1cex).bind parseStream).map
      (fun c => c.messages.map Msg.id) = .ok ["m2", "m1"] := by
  refine ⟨rfl, rfl, ?_⟩
  rfl

/-- **C1 (amended)**: the round trip is exact for every conversation that
passes §4.5 validation and in addition (a) lists its messages in
nondecreasing timestamp order, (b) has duplicate-free message and
attachment ids (they are PRIMARY KEY columns), (c) has `participants` as
a list of strings (its declared type), (d) has no present-but-empty
(Python-falsy) optional field (message `attachments`/`metadata`,
attachment `metadata`/`created_at`, conversation `attachments`), and
(e) has an encoded metadata block shorter than 2^32 bytes.  Then
`parse(write(c))` returns identical metadata, the same messages in the
same order with equal fields, and the same attachments with
byte-identical data. -/
theorem C1_roundtrip_amended (md : RawMeta) (ms : List Msg)
    (atts : Option (List Attachment)) {w : MVal} {ps : List String}
    (hv : hasK md "version") (hc : getK md "created_at" = some w)
    (hp : getK md "participants" = some (.strList ps))
    (hyl : (yamlEnc md).length < 2 ^ 32)
    (hsort : ms.Pairwise (fun a b => a.timestamp ≤ b.timestamp))
    (hmid : (ms.map Msg.id).Nodup)
    (haid : ((atts.getD []).map Attachment.id).Nodup)
    (hmsg : ∀ m ∈ ms, m.attachments ≠ some [] ∧ m.metadata ≠ some [])
    (hatt : ∀ a ∈ atts.getD [], a.metadata ≠ some [] ∧ a.created_at ≠ some "")
    (hne : ∀ l, atts = some l → l ≠ []) :
    (writeStream (convD md ms atts)).bind parseStream = .ok ⟨md, ms, atts⟩ :=
  roundTrip md ms atts hv hc hp hyl hsort hmid haid hmsg hatt hne

def rtMsgs : List Msg :=
  [{ id := "m1", role := "user", content := "x", timestamp := "A",
     attachments := some ["a1"], metadata := some [("k", "v")] },
   { id := "m2", role := "assistant", content := "y", timestamp := "B",
     parent_id := some "m1" }]

def rtAtts : List Attachment :=
  [{ id := "a1", filename := "f.txt", content_type := "text/plain",
     size := 3, data := [1, 2, 3], created_at := some "T" }]

/-- Witness for C1: a concrete sorted conversation with an attachment
round-trips exactly. -/
theorem C1_roundtrip_amended_witness :
    (writeStream (convD c1meta rtMsgs (some rtAtts))).bind parseStream =
      .ok ⟨c1meta, rtMsgs, some rtAtts⟩ :=
  C1_roundtrip_amended c1meta rtMsgs (some rtAtts) rfl rfl rfl (by decide)
    (by
      refine List.pairwise_cons.mpr ⟨?_, List.pairwise_singleton _ _⟩
      intro b hb
      rw [List.mem_singleton] at hb
      subst hb
      rw [String.le_iff_toList_le]
      decide)
    (by decide) (by decide) (by decide) (by decide)
    (fun l hl => by injection hl with h; rw [← h]; decide)

/-! ## Claim C2 -/

/-- The in-flight exception is `LLMCFormatError`. -/
def isTypedFormat : Except Exn α → Bool
  | .error (.typed (.formatError _)) => true
  | _ => false

/-- The in-flight exception is an untyped Python exception. -/
def isUntyped : Except Exn α → Bool
  | .error (.untyped _) => true
  | _ => false

/-- The caller-visible error is `LLMCParseError`. -/
def isParseErr : Except LError α → Bool
  | .error (.parseError _) => true
  | _ => false

/-- The caller-visible error is `LLMCFormatError`. -/
def isFormatErrL : Except LError α → Bool
  | .error (.formatError _) => true
  | _ => false

theorem parseStream_header_typed {b : List Nat} {e : LError}
    (h : readHeader b = .error (.typed e)) :
    parseStream b = .error e := by
  unfold parseStream parseStreamE
  rw [h]
  rfl

theorem parseStream_header_untyped {b : List Nat} {m : String}
    (h : readHeader b = .error (.untyped m)) :
    parseStream b = .error (.parseError
      ("Unexpected error during parsing: " ++ m)) := by
  unfold parseStream parseStreamE
  rw [h]
  rfl

theorem C2_header_errors_amended (b : List Nat) :
    (b.take 4 ≠ LLMC_MAGIC →
      parseStream b = .error (.formatError ("Invalid magic bytes"))) ∧
    (b.take 4 = LLMC_MAGIC → 5 ≤ b.length → b.getD 4 0 ≠ 1 →
      parseStream b = .error (.formatError ("Unsupported version"))) ∧
    (b.take 4 = LLMC_MAGIC → b.getD 4 0 = 1 → 12 ≤ b.length →
      leNum ((b.drop 8).take 4) ≠ 1 →
      parseStream b = .error (.formatError ("Unsupported format version"))) ∧
    (b.take 4 = LLMC_MAGIC → b.getD 4 0 = 1 →
      (12 ≤ b.length → leNum ((b.drop 8).take 4) = 1) → b.length < 24 →
      isParseErr (parseStream b) = true) := by
  refine ⟨?_, ?_, ?_, ?_⟩
  · intro h
    apply parseStream_header_typed
    unfold readHeader
    rw [if_pos h]
  · intro hm hl hv
    apply parseStream_header_typed
    unfold readHeader
    simp only [LLMC_VERSION]
    rw [if_neg (not_not_intro hm), if_neg (by omega : ¬ b.length < 5),
      if_pos hv]
  · intro hm hv hl hr
    apply parseStream_header_typed
    unfold readHeader
    simp only [LLMC_VERSION]
    rw [if_neg (not_not_intro hm), if_neg (by omega : ¬ b.length < 5),
      if_neg (not_not_intro hv), if_neg (by omega : ¬ b.length < 12),
      if_pos hr]
  · intro hm hv hr hl
    have hu : isUntyped (readHeader b) = true := by
      unfold readHeader
      simp only [LLMC_VERSION]
      rw [if_neg (not_not_intro hm)]
      by_cases h5 : b.length < 5
      · rw [if_pos h5]
        rfl
      · rw [if_neg h5, if_neg (not_not_intro hv)]
        by_cases h12 : b.length < 12
        · rw [if_pos h12]
          rfl
        · rw [if_neg h12, if_neg (not_not_intro (hr (by omega)))]
          by_cases h16 : b.length < 16
          · rw [if_pos h16]
            rfl
          · rw [if_neg h16, if_pos hl]
            rfl
    rcases hrd : readHeader b with e | hf
    · rcases e with te | m
      · rw [hrd] at hu
        simp [isUntyped] at hu
      · rw [parseStream_header_untyped hrd]
        rfl
    · rw [hrd] at hu
      simp [isUntyped] at hu

/-- **C2, counterexample**: the 4-byte input `b"LLMC"` is shorter than the
fixed header size, yet parsing fails with `LLMCParseError` (the
`struct.error` raised by `unpack` on the truncated buffer is wrapped by
`parse_stream`), not `LLMCFormatError` as the claim requires. -/
theorem C2_truncation_counterexample :
    isParseErr (parseStream [76, 76, 77, 67]) = true ∧
    isFormatErrL (parseStream [76, 76, 77, 67]) = false := ⟨rfl, rfl⟩

/-- Witness for C2 at concrete inputs: a magic mismatch yields
`FormatError`; a truncated-after-magic input yields `ParseError`. -/
theorem C2_header_errors_amended_witness :
    parseStream [0, 0, 0, 0] = .error (.formatError ("Invalid magic bytes")) ∧
    isParseErr (parseStream [76, 76, 77, 67, 1]) = true := by
  constructor
  · exact (C2_header_errors_amended [0, 0, 0, 0]).1 (by decide)
  · exact (C2_header_errors_amended [76, 76, 77, 67, 1]).2.2.2 rfl rfl
      (fun h => absurd h (by decide)) (by decide)

/-! ## Claim C10 -/

theorem slice_eq {b1 b2 : List Nat} (s n : Nat)
    (h : ∀ i, s ≤ i → i < s + n → b1[i]? = b2[i]?) :
    (b1.drop s).take n = (b2.drop s).take n := by
  apply List.ext_getElem?
  intro j
  rw [List.getElem?_take, List.getElem?_take]
  by_cases hj : j < n
  · rw [if_pos hj, if_pos hj, List.getElem?_drop, List.getElem?_drop]
    exact h (s + j) (by omega) (by omega)
  · rw [if_neg hj, if_neg hj]

/-- `_read_header` on any input with valid magic, version and revision
and at least the 24 bytes of fixed numeric fields succeeds with the two
little-endian fields read from offsets 12 and 16. -/
theorem readHeader_ok_of {b : List Nat} (hm : b.take 4 = LLMC_MAGIC)
    (hv : b.getD 4 0 = 1) (hr : leNum ((b.drop 8).take 4) = 1)
    (hl : 24 ≤ b.length) :
    readHeader b = .ok ⟨1, 1, leNum ((b.drop 12).take 4),
      leNum ((b.drop 16).take 8)⟩ := by
  unfold readHeader
  simp only [LLMC_VERSION]
  rw [if_neg (not_not_intro hm), if_neg (by omega : ¬ b.length < 5),
    if_neg (not_not_intro hv), if_neg (by omega : ¬ b.length < 12),
    if_neg (not_not_intro hr), if_neg (by omega : ¬ b.length < 16),
    if_neg (by omega : ¬ b.length < 24), hv, hr]

/-- **C10 (confirmed)**: the header decoder never inspects bytes 5-7
(reserved), 24 (encryption flags) or 25-31 (trailing reserved): two
inputs of the 32-byte-header shape agreeing everywhere outside those 11
positions, with valid magic, version and revision, both decode
successfully to the same header fields; in particular a nonzero
encryption-flags byte is accepted. -/
theorem C10_reserved_ignored (b1 b2 : List Nat)
    (hag : ∀ i : Nat,
      i ∉ ([5, 6, 7, 24, 25, 26, 27, 28, 29, 30, 31] : List Nat) →
      b1[i]? = b2[i]?)
    (h32 : 32 ≤ b1.length)
    (hm : b1.take 4 = LLMC_MAGIC) (hv : b1.getD 4 0 = 1)
    (hr : leNum ((b1.drop 8).take 4) = 1) :
    readHeader b1 = .ok ⟨1, 1, leNum ((b1.drop 12).take 4),
      leNum ((b1.drop 16).take 8)⟩ ∧
    readHeader b2 = readHeader b1 := by
  have hnotex : ∀ i : Nat, (i < 5 ∨ (8 ≤ i ∧ i < 24)) →
      i ∉ ([5, 6, 7, 24, 25, 26, 27, 28, 29, 30, 31] : List Nat) := by
    intro i hi hmem
    simp only [List.mem_cons, List.not_mem_nil, or_false] at hmem
    omega
  have t4 : b2.take 4 = b1.take 4 := by
    have h := @slice_eq b1 b2 0 4
      (fun i h1 h2 => hag i (hnotex i (by omega)))
    simpa [List.drop_zero] using h.symm
  have g4 : b2.getD 4 0 = b1.getD 4 0 := by
    rw [List.getD_eq_getElem?_getD, List.getD_eq_getElem?_getD,
      hag 4 (hnotex 4 (by omega))]
  have s8 : (b2.drop 8).take 4 = (b1.drop 8).take 4 :=
    (slice_eq 8 4 (fun i h1 h2 => hag i (hnotex i (by omega)))).symm
  have s12 : (b2.drop 12).take 4 = (b1.drop 12).take 4 :=
    (slice_eq 12 4 (fun i h1 h2 => hag i (hnotex i (by omega)))).symm
  have s16 : (b2.drop 16).take 8 = (b1.drop 16).take 8 :=
    (slice_eq 16 8 (fun i h1 h2 => hag i (hnotex i (by omega)))).symm
  have hl2 : 24 ≤ b2.length := by
    have h23 : b2[23]? = b1[23]? := (hag 23 (hnotex 23 (by omega))).symm
    have e : b1[23]? = some (b1.getD 23 0) := by
      rw [List.getD_eq_getElem?_getD, List.getElem?_eq_getElem (by omega)]
      rfl
    rw [e] at h23
    rcases List.getElem?_eq_some.mp h23 with ⟨hlt, _⟩
    omega
  refine ⟨readHeader_ok_of hm hv hr (by omega), ?_⟩
  rw [readHeader_ok_of hm hv hr (by omega),
    readHeader_ok_of (t4.trans hm) (g4.trans hv) (by rw [s8]; exact hr) hl2,
    s12, s16]

def c10b1 : List Nat :=
  [76, 76, 77, 67, 1, 0, 0, 0, 1, 0, 0, 0, 9, 0, 0, 0,
   41, 0, 0, 0, 0, 0, 0, 0, 0, 0, 0, 0, 0, 0, 0, 0]

/-- `c10b1` with nonzero reserved bytes and a nonzero encryption flag. -/
def c10b2 : List Nat :=
  [76, 76, 77, 67, 1, 7, 7, 7, 1, 0, 0, 0, 9, 0, 0, 0,
   41, 0, 0, 0, 0, 0, 0, 0, 255, 1, 2, 3, 4, 5, 6, 7]

/-- Witness for C10: two concrete 32-byte headers differing only in the
reserved bytes and the encryption flag decode to the same fields. -/
theorem C10_reserved_ignored_witness :
    readHeader c10b1 = .ok ⟨1, 1, leNum ((c10b1.drop 12).take 4),
      leNum ((c10b1.drop 16).take 8)⟩ ∧
    readHeader c10b2 = readHeader c10b1 := by
  apply C10_reserved_ignored
  · intro i hmem
    by_cases hi : i < 32
    · interval_cases i <;>
        first
          | rfl
          | exact absurd (by decide) hmem
    · rw [List.getElem?_eq_none (by simp [c10b1]; omega),
        List.getElem?_eq_none (by simp [c10b2]; omega)]
  · decide
  · decide
  · decide
  · decide

/-! ## Claim C3 -/

theorem aliasCreated_preserves {d : RawMeta} {k : String}
    (h1 : k ≠ "created") (h2 : k ≠ "created_at") :
    getK (aliasCreated d) k = getK d k := by
  unfold aliasCreated
  rcases hg : getK d "created" with _ | v <;>
    rcases hc : getK d "created_at" with _ | w <;>
    simp only [] <;>
    try rfl
  rw [getK_setK_ne _ _ h2, getK_popK_ne _ h1]

theorem aliasLlmdVersion_preserves {d : RawMeta} {k : String}
    (h1 : k ≠ "llmd_version") (h2 : k ≠ "version") :
    getK (aliasLlmdVersion d) k = getK d k := by
  unfold aliasLlmdVersion
  rcases hg : getK d "llmd_version" with _ | v <;>
    rcases hc : getK d "version" with _ | w <;>
    simp only [] <;>
    try rfl
  rw [getK_setK_ne _ _ h2, getK_popK_ne _ h1]

theorem fixParticipants_preserves {d : RawMeta} {k : String}
    (h : k ≠ "participants") :
    getK (fixParticipants d) k = getK d k := by
  unfold fixParticipants
  rcases hg : getK d "participants" with _ | v
  · rw [getK_setK_ne _ _ h]
  · rcases v with sv | l | l | o
    · rfl
    · rfl
    · rcases l with _ | ⟨p0, rest⟩
      · rfl
      · dsimp only
        split_ifs
        · rfl
        · rw [getK_setK_ne _ _ h]
    · rfl

theorem requireFields_ok_eq {d res : RawMeta}
    (h : requireFields d = .ok res) : res = d := by
  unfold requireFields at h
  split_ifs at h <;> first | exact (Except.ok.inj h).symm | simp at h



/-- **C3 (amended)**: participants defaulting, created→created_at
aliasing and canonical-wins hold in both normalizers, but
llmd_version→version aliasing is performed only by the LLMD variant's
normalizer; the LLMC variant leaves `llmd_version` untouched and fails
with `FormatError` when `version` is absent. -/
theorem C3_metadata_aliasing_amended :
    (∀ d res, llmcParseMetadata d = .ok res → hasK d "participants" = false →
      getK res "participants" = some (.strList ["user", "assistant"])) ∧
    (∀ d res, llmdParseMetadata d = .ok res → hasK d "participants" = false →
      getK res "participants" = some (.strList ["user", "assistant"])) ∧
    (∀ d res v, llmcParseMetadata d = .ok res → getK d "created" = some v →
      getK d "created_at" = none →
      getK res "created_at" = some v ∧ hasK res "created" = false) ∧
    (∀ d res v, llmdParseMetadata d = .ok res → getK d "created" = some v →
      getK d "created_at" = none →
      getK res "created_at" = some v ∧ hasK res "created" = false) ∧
    (∀ d res v, llmdParseMetadata d = .ok res →
      getK d "llmd_version" = some v → getK d "version" = none →
      getK res "version" = some v ∧ hasK res "llmd_version" = false) ∧
    (∀ d res v w, llmcParseMetadata d = .ok res → getK d "created" = some v →
      getK d "created_at" = some w → getK res "created_at" = some w) ∧
    (∀ d res v w, llmdParseMetadata d = .ok res →
      getK d "llmd_version" = some v → getK d "version" = some w →
      getK res "version" = some w) ∧
    (∀ d v, getK d "llmd_version" = some v → hasK d "version" = false →
      llmcParseMetadata d =
        .error (.formatError ("Missing required field: version"))) := by
  refine ⟨?_, ?_, ?_, ?_, ?_, ?_, ?_, ?_⟩
  · intro d res h hp
    rw [requireFields_ok_eq h]
    have hp1 : getK (aliasCreated d) "participants" = none := by
      rw [aliasCreated_preserves (by decide) (by decide)]
      unfold hasK at hp
      exact Option.not_isSome_iff_eq_none.mp (by simp [hp])
    unfold fixParticipants
    rw [hp1, getK_setK_self]
  · intro d res h hp
    rw [requireFields_ok_eq h]
    have hp1 : getK (aliasCreated (aliasLlmdVersion d)) "participants" = none := by
      rw [aliasCreated_preserves (by decide) (by decide),
        aliasLlmdVersion_preserves (by decide) (by decide)]
      unfold hasK at hp
      exact Option.not_isSome_iff_eq_none.mp (by simp [hp])
    unfold fixParticipants
    rw [hp1, getK_setK_self]
  · intro d res v h hc hca
    rw [requireFields_ok_eq h]
    have e : aliasCreated d = setK (popK d "created") "created_at" v := by
      unfold aliasCreated
      rw [hc, hca]
    constructor
    · rw [fixParticipants_preserves (by decide), e, getK_setK_self]
    · unfold hasK
      rw [fixParticipants_preserves (by decide), e,
        getK_setK_ne _ _ (by decide), getK_popK_self]
      rfl
  · intro d res v h hc hca
    rw [requireFields_ok_eq h]
    have hc2 : getK (aliasLlmdVersion d) "created" = some v := by
      rw [aliasLlmdVersion_preserves (by decide) (by decide)]
      exact hc
    have hca2 : getK (aliasLlmdVersion d) "created_at" = none := by
      rw [aliasLlmdVersion_preserves (by decide) (by decide)]
      exact hca
    have e : aliasCreated (aliasLlmdVersion d) =
        setK (popK (aliasLlmdVersion d) "created") "created_at" v := by
      unfold aliasCreated
      rw [hc2, hca2]
    constructor
    · rw [fixParticipants_preserves (by decide), e, getK_setK_self]
    · unfold hasK
      rw [fixParticipants_preserves (by decide), e,
        getK_setK_ne _ _ (by decide), getK_popK_self]
      rfl
  · intro d res v h hl hv
    rw [requireFields_ok_eq h]
    have e : aliasLlmdVersion d = setK (popK d "llmd_version") "version" v := by
      unfold aliasLlmdVersion
      rw [hl, hv]
    constructor
    · rw [fixParticipants_preserves (by decide),
        aliasCreated_preserves (by decide) (by decide), e, getK_setK_self]
    · unfold hasK
      rw [fixParticipants_preserves (by decide),
        aliasCreated_preserves (by decide) (by decide), e,
        getK_setK_ne _ _ (by decide), getK_popK_self]
      rfl
  · intro d res v w h hc hca
    rw [requireFields_ok_eq h]
    have e : aliasCreated d = d := by
      unfold aliasCreated
      rw [hc, hca]
    rw [fixParticipants_preserves (by decide), e]
    exact hca
  · intro d res v w h hl hv
    rw [requireFields_ok_eq h]
    have e : aliasLlmdVersion d = d := by
      unfold aliasLlmdVersion
      rw [hl, hv]
    rw [fixParticipants_preserves (by decide),
      aliasCreated_preserves (by decide) (by decide), e]
    exact hv
  · intro d v hl hv
    have h1 : hasK (fixParticipants (aliasCreated d)) "version" = false := by
      unfold hasK
      rw [fixParticipants_preserves (by decide),
        aliasCreated_preserves (by decide) (by decide)]
      unfold hasK at hv
      exact hv
    unfold llmcParseMetadata requireFields
    rw [h1]
    rfl

def c3input : RawMeta :=
  [("llmd_version", .str "0.1"), ("created_at", .str "t"),
   ("participants", .strList ["user"])]

/-- **C3, counterexample**: on a mapping with the legacy `llmd_version`
key and no `version` key, the LLMC normalizer does NOT move the value to
the canonical key; it fails with `FormatError: Missing required field:
version` (only the LLMD variant performs that aliasing). -/
theorem C3_llmd_version_counterexample :
    llmcParseMetadata c3input =
      .error (.formatError ("Missing required field: version")) := rfl

/-- Witness for C3: participants defaulting on a concrete mapping, and
llmd_version aliasing through the LLMD normalizer. -/
theorem C3_metadata_aliasing_amended_witness :
    getK [("version", .str "1"), ("created_at", .str "t"),
      ("participants", .strList ["user", "assistant"])] "participants" =
      some (.strList ["user", "assistant"]) ∧
    getK [("created_at", .str "t"), ("participants", .strList ["u"]),
      ("version", .str "0.2")] "version" = some (.str "0.2") := by
  constructor
  · exact C3_metadata_aliasing_amended.1
      [("version", .str "1"), ("created_at", .str "t")] _ rfl rfl
  · exact (C3_metadata_aliasing_amended.2.2.2.2.1
      [("llmd_version", .str "0.2"), ("created_at", .str "t"),
        ("participants", .strList ["u"])]
      [("created_at", .str "t"), ("participants", .strList ["u"]),
        ("version", .str "0.2")] (.str "0.2") rfl rfl rfl).1

/-! ## Claims C4 and C5 -/

/-- A container holding the given metadata and store, with correct
length and offset fields (the writer's layout). -/
def mkContainer (md : RawMeta) (st : SqliteStore) : List Nat :=
  writeHeader (yamlEnc md).length (32 + (yamlEnc md).length) ++
    yamlEnc md ++ sqliteEnc st

def mdMin : RawMeta :=
  [("version", .str "1"), ("created_at", .str "t"),
   ("participants", .strList ["u"])]

theorem wRowToMsg_not_ok {r : WMsgRow} {s : String}
    (h : r.metadata = some (.invalid s)) (hs : s ≠ "") :
    ∀ x, wRowToMsg r ≠ .ok x := by
  intro x
  unfold wRowToMsg
  rcases ha : r.attachments with _ | jc
  · simp [h, hs, JsonCol.truthy, JsonCol.loads, Bind.bind, Except.bind, Pure.pure, Except.pure, throw, throwThe, MonadExceptOf.throw]
  · rcases jc with v | raw
    · simp [h, hs, JsonCol.truthy, JsonCol.loads, Bind.bind, Except.bind,
        Pure.pure, Except.pure, throw, throwThe, MonadExceptOf.throw]
    · by_cases hraw : raw = "" <;>
        simp [h, hs, hraw, JsonCol.truthy, JsonCol.loads, Bind.bind,
          Except.bind, Pure.pure, Except.pure, throw, throwThe,
          MonadExceptOf.throw]

theorem wRowToMsg_error_untyped {r : WMsgRow} {e : Exn}
    (h : wRowToMsg r = .error e) : ∃ m, e = .untyped m := by
  unfold wRowToMsg at h
  rcases ha : r.attachments with _ | jc <;> rw [ha] at h <;>
    rcases hm : r.metadata with _ | jm <;> rw [hm] at h
  · simp [Bind.bind, Except.bind, Pure.pure, Except.pure] at h
  · rcases jm with v | raw
    · simp [JsonCol.truthy, JsonCol.loads, Bind.bind, Except.bind,
        Pure.pure, Except.pure, throw, throwThe, MonadExceptOf.throw] at h
    · by_cases hraw : raw = "" <;>
        simp [hraw, JsonCol.truthy, JsonCol.loads, Bind.bind, Except.bind,
          Pure.pure, Except.pure, throw, throwThe, MonadExceptOf.throw] at h <;>
        first
          | exact ⟨_, h.symm⟩
          | skip
  · rcases jc with v | raw
    · simp [JsonCol.truthy, JsonCol.loads, Bind.bind, Except.bind,
        Pure.pure, Except.pure, throw, throwThe, MonadExceptOf.throw] at h
    · by_cases hraw : raw = "" <;>
        simp [hraw, JsonCol.truthy, JsonCol.loads, Bind.bind, Except.bind,
          Pure.pure, Except.pure, throw, throwThe, MonadExceptOf.throw] at h <;>
        first
          | exact ⟨_, h.symm⟩
          | skip
  · rcases jc with v | raw <;> rcases jm with w | raw2
    · simp [JsonCol.truthy, JsonCol.loads, Bind.bind, Except.bind,
        Pure.pure, Except.pure, throw, throwThe, MonadExceptOf.throw] at h
    · by_cases hraw : raw2 = "" <;>
        simp [hraw, JsonCol.truthy, JsonCol.loads, Bind.bind, Except.bind,
          Pure.pure, Except.pure, throw, throwThe, MonadExceptOf.throw] at h <;>
        first
          | exact ⟨_, h.symm⟩
          | skip
    · by_cases hraw : raw = "" <;>
        simp [hraw, JsonCol.truthy, JsonCol.loads, Bind.bind, Except.bind,
          Pure.pure, Except.pure, throw, throwThe, MonadExceptOf.throw] at h <;>
        first
          | exact ⟨_, h.symm⟩
          | skip
    · by_cases hraw : raw = "" <;> by_cases hraw2 : raw2 = "" <;>
        simp [hraw, hraw2, JsonCol.truthy, JsonCol.loads, Bind.bind,
          Except.bind, Pure.pure, Except.pure, throw, throwThe,
          MonadExceptOf.throw] at h <;>
        first
          | exact ⟨_, h.symm⟩
          | skip


theorem mapM_error_untyped {l : List WMsgRow} {e : Exn}
    (h : l.mapM wRowToMsg = .error e) : ∃ m, e = .untyped m := by
  induction l with
  | nil => simp [List.mapM, List.mapM.loop, Pure.pure, Except.pure] at h
  | cons a as ih =>
    rw [List.mapM_cons] at h
    rcases hfa : wRowToMsg a with e2 | x
    · rw [hfa] at h
      simp only [Bind.bind, Except.bind] at h
      cases h
      exact wRowToMsg_error_untyped hfa
    · rw [hfa] at h
      simp only [Bind.bind, Except.bind] at h
      rcases hrest : as.mapM wRowToMsg with e3 | l2
      · rw [hrest] at h
        simp only [Bind.bind, Except.bind] at h
        cases h
        exact ih hrest
      · rw [hrest] at h
        simp [Bind.bind, Except.bind, Pure.pure, Except.pure] at h

theorem parseMessagesW_error_untyped {l : List WMsgRow} {e : Exn}
    (h : parseMessagesW l = .error e) : ∃ m, e = .untyped m :=
  mapM_error_untyped h

/-- **C4 (amended)**: the lenient handling of a malformed `metadata` JSON
subfield exists only in the alternate-dialect read path, where the row
parses with `metadata` simply absent and every other field as if the
column were NULL, and where row parsing can never fail; in the
write-schema read path `json.loads(row[6])` is unguarded, so a malformed
truthy `metadata` value makes the entire message query fail (with an
untyped `json.JSONDecodeError`, surfaced by `parse_stream` as
`LLMCParseError`). -/
theorem C4_lenient_metadata_amended :
    (∀ (atts : List AltAttRow) (r : AltMsgRow) (s : String),
      r.metadata = some (.invalid s) →
      altRowToMsg atts r = altRowToMsg atts { r with metadata := none }) ∧
    (∀ (atts : List AltAttRow) (r : AltMsgRow),
      r.metadata = none → (altRowToMsg atts r).metadata = none ∧
      (altRowToMsg atts r).id = synthMsgId r.key ∧
      (altRowToMsg atts r).role = r.role ∧
      (altRowToMsg atts r).content = r.content ∧
      (altRowToMsg atts r).timestamp = r.timestamp ∧
      (altRowToMsg atts r).parent_id = r.parent.map synthMsgId) ∧
    (∀ (i : Int) (msgs : List AltMsgRow) (atts : List AltAttRow),
      ∃ out, parseMessages (.altschema i msgs atts) = .ok out) ∧
    (∀ (i : Int) (msgs : List WMsgRow) (atts : List WAttRow)
      (r : WMsgRow) (s : String), r ∈ msgs →
      r.metadata = some (.invalid s) → s ≠ "" →
      ∀ out, parseMessages (.wschema i msgs atts) ≠ .ok out) := by
  refine ⟨?_, ?_, ?_, ?_⟩
  · intro atts r s h
    unfold altRowToMsg
    by_cases hs : s = "" <;>
      simp [h, hs, JsonCol.truthy, JsonCol.loads]
  · intro atts r h
    unfold altRowToMsg
    simp only [h]
    refine ⟨?_, ?_, ?_, ?_, ?_, ?_⟩ <;>
      (split <;> (try split_ifs) <;> rfl)
  · intro i msgs atts
    exact ⟨_, rfl⟩
  · intro i msgs atts r s hr hm hs out
    show parseMessagesW msgs ≠ .ok out
    unfold parseMessagesW
    exact mapM_ne_ok ((List.perm_insertionSort wTimeLe msgs).mem_iff.mpr hr)
      (wRowToMsg_not_ok hm hs) out

def c4store : SqliteStore :=
  .wschema SQLITE_APPLICATION_ID
    [⟨"m1", "user", "c", "t", none, none, some (.invalid "x")⟩] []

/-- **C4, counterexample**: a write-schema store whose single message row
has a malformed truthy `metadata` JSON value makes the whole parse fail
with `LLMCParseError` instead of succeeding with the field dropped. -/
theorem C4_wschema_metadata_counterexample :
    isParseErr (parseStream (mkContainer mdMin c4store)) = true ∧
    isFormatErrL (parseStream (mkContainer mdMin c4store)) = false :=
  ⟨rfl, rfl⟩

/-- Witness for C4: a concrete alternate-dialect row with malformed
metadata parses like the same row with a NULL metadata column. -/
theorem C4_lenient_metadata_amended_witness :
    altRowToMsg [] ⟨1, 0, "user", "c", "t", none, some (.invalid "x")⟩ =
      altRowToMsg [] ⟨1, 0, "user", "c", "t", none, none⟩ :=
  C4_lenient_metadata_amended.1 []
    ⟨1, 0, "user", "c", "t", none, some (.invalid "x")⟩ "x" rfl


theorem wRowToMsg_att_not_ok {r : WMsgRow} {s : String}
    (h : r.attachments = some (.invalid s)) (hs : s ≠ "") :
    ∀ x, wRowToMsg r ≠ .ok x := by
  intro x
  unfold wRowToMsg
  simp [h, hs, JsonCol.truthy, JsonCol.loads, Bind.bind, Except.bind,
    Pure.pure, Except.pure, throw, throwThe, MonadExceptOf.throw]

/-- **C5 (amended)**: in the write-schema read path a malformed truthy
`attachments` JSON value is a hard failure of the whole message query
(the unguarded `json.loads(row[5])` raises `json.JSONDecodeError`), but
the error surfaced by `parse_stream` is `LLMCParseError`, not
`LLMCFormatError`: every failure of the write-schema message query is an
untyped exception, and the outermost handler wraps those as
`LLMCParseError`.  The alternate dialect's message query never parses an
attachment-id list as JSON and cannot fail at all. -/
theorem C5_attachments_json_amended :
    (∀ (i : Int) (msgs : List WMsgRow) (atts : List WAttRow)
      (r : WMsgRow) (s : String), r ∈ msgs →
      r.attachments = some (.invalid s) → s ≠ "" →
      ∀ out, parseMessages (.wschema i msgs atts) ≠ .ok out) ∧
    (∀ (i : Int) (msgs : List WMsgRow) (atts : List WAttRow) (e : Exn),
      parseMessages (.wschema i msgs atts) = .error e →
      ∃ m, e = .untyped m) ∧
    (∀ (b : List Nat) (m : String),
      parseStreamE b = .error (.untyped m) →
      isParseErr (parseStream b) = true) ∧
    (∀ (i : Int) (msgs : List AltMsgRow) (atts : List AltAttRow),
      ∃ out, parseMessages (.altschema i msgs atts) = .ok out) := by
  refine ⟨?_, ?_, ?_, ?_⟩
  · intro i msgs atts r s hr hm hs out
    show parseMessagesW msgs ≠ .ok out
    unfold parseMessagesW
    exact mapM_ne_ok ((List.perm_insertionSort wTimeLe msgs).mem_iff.mpr hr)
      (wRowToMsg_att_not_ok hm hs) out
  · intro i msgs atts e h
    exact parseMessagesW_error_untyped h
  · intro b m h
    unfold parseStream
    rw [h]
    rfl
  · intro i msgs atts
    exact ⟨_, rfl⟩

def c5store : SqliteStore :=
  .wschema SQLITE_APPLICATION_ID
    [⟨"m1", "user", "c", "t", none, some (.invalid "x"), none⟩] []

/-- **C5, counterexample**: a write-schema store whose message row holds a
malformed `attachments` JSON value makes the whole parse fail, but with
`LLMCParseError`, not the `LLMCFormatError` the claim asserts. -/
theorem C5_error_kind_counterexample :
    isParseErr (parseStream (mkContainer mdMin c5store)) = true ∧
    isFormatErrL (parseStream (mkContainer mdMin c5store)) = false :=
  ⟨rfl, rfl⟩

/-- Witness for C5: the concrete malformed-attachments store fails the
message query. -/
theorem C5_attachments_json_amended_witness :
    parseMessages (.wschema SQLITE_APPLICATION_ID
      [⟨"m1", "user", "c", "t", none, some (.invalid "x"), none⟩] []) ≠
      .ok [] :=
  C5_attachments_json_amended.1 SQLITE_APPLICATION_ID
    [⟨"m1", "user", "c", "t", none, some (.invalid "x"), none⟩] []
    ⟨"m1", "user", "c", "t", none, some (.invalid "x"), none⟩ "x"
    (List.mem_singleton.mpr rfl) rfl (by decide) []

/-! ## Claim C6 -/

/-- All four required message fields are present. -/
def msgFieldsOk (m : MsgD) : Bool :=
  m.id.isSome && m.role.isSome && m.content.isSome && m.timestamp.isSome

theorem validateMsgs_content_missing : ∀ (k : Nat) (ms : List MsgD)
    (i : Nat) (hi : i < ms.length),
    (∀ j (hj : j < i), msgFieldsOk (ms.get ⟨j, by omega⟩) = true) →
    (ms.get ⟨i, hi⟩).id.isSome = true →
    (ms.get ⟨i, hi⟩).role.isSome = true →
    (ms.get ⟨i, hi⟩).content = none →
    validateMsgs k ms = some ("Message " ++ toString (k + i) ++
      " missing required field: content") := by
  intro k ms
  induction ms generalizing k with
  | nil => intro i hi; simp at hi
  | cons m rest ih =>
    intro i hi hpre hid hrole hcontent
    rcases i with _ | j
    · simp only [List.get] at hid hrole hcontent
      have h1 : ¬ m.id.isNone = true := by
        simp only [Option.isNone_iff_eq_none]
        exact Option.ne_none_iff_isSome.mpr hid
      have h2 : ¬ m.role.isNone = true := by
        simp only [Option.isNone_iff_eq_none]
        exact Option.ne_none_iff_isSome.mpr hrole
      unfold validateMsgs
      rw [if_neg h1, if_neg h2, if_pos (by simp [hcontent])]
      rfl
    · have h0 : msgFieldsOk m = true := hpre 0 (by omega)
      simp only [msgFieldsOk, Bool.and_eq_true] at h0
      have h1 : ¬ m.id.isNone = true := by
        simp only [Option.isNone_iff_eq_none]
        exact Option.ne_none_iff_isSome.mpr h0.1.1.1
      have h2 : ¬ m.role.isNone = true := by
        simp only [Option.isNone_iff_eq_none]
        exact Option.ne_none_iff_isSome.mpr h0.1.1.2
      have h3 : ¬ m.content.isNone = true := by
        simp only [Option.isNone_iff_eq_none]
        exact Option.ne_none_iff_isSome.mpr h0.1.2
      have h4 : ¬ m.timestamp.isNone = true := by
        simp only [Option.isNone_iff_eq_none]
        exact Option.ne_none_iff_isSome.mpr h0.2
      unfold validateMsgs
      rw [if_neg h1, if_neg h2, if_neg h3, if_neg h4]
      have := ih (k + 1) j (by simpa using hi)
        (fun j2 hj2 => hpre (j2 + 1) (by omega)) hid hrole hcontent
      rw [this]
      have e : k + 1 + j = k + (j + 1) := by omega
      rw [e]

/-- **C6 (confirmed)**: when the pre-write structural check fails,
`write_stream` fails with `ValidationError` carrying exactly the message
of the first failing check (the embedded `validateConversation` runs the
source's checks in order and stops at the first failure), and no bytes
are produced; in particular a message whose earlier siblings are
well-formed and which lacks `content` (with `id` and `role` present) is
reported as `Message {i} missing required field: content`. -/
theorem C6_validation :
    (∀ (c : ConvD) (msg : String), validateConversation c = some msg →
      writeStream c = .error (.validationError msg)) ∧
    (∀ (ms : List MsgD) (i : Nat) (hi : i < ms.length),
      (∀ j (hj : j < i), msgFieldsOk (ms.get ⟨j, by omega⟩) = true) →
      (ms.get ⟨i, hi⟩).id.isSome = true →
      (ms.get ⟨i, hi⟩).role.isSome = true →
      (ms.get ⟨i, hi⟩).content = none →
      validateMsgs 0 ms = some ("Message " ++ toString i ++
        " missing required field: content")) := by
  constructor
  · intro c msg h
    unfold writeStream writeStreamE
    rw [h]
    rfl
  · intro ms i hi hpre hid hrole hcontent
    have := validateMsgs_content_missing 0 ms i hi hpre hid hrole hcontent
    simpa using this

/-- A conversation whose metadata lacks `version`. -/
def c6conv : ConvD :=
  { metadata := some [("created_at", .str "t")],
    messages := some [] }

/-- A message list whose second message lacks `content`. -/
def c6msgs : List MsgD :=
  [{ id := some "m1", role := some "user", content := some "x",
     timestamp := some "t" },
   { id := some "m2", role := some "assistant", timestamp := some "t" }]

/-- Witness for C6: missing `metadata.version` fails `write` with the
named `ValidationError` before any bytes are emitted, and a message
missing `content` is reported with its index. -/
theorem C6_validation_witness :
    writeStream c6conv =
      .error (.validationError ("Missing required metadata field: version")) ∧
    validateMsgs 0 c6msgs =
      some ("Message 1 missing required field: content") := by
  constructor
  · exact C6_validation.1 c6conv _ rfl
  · exact C6_validation.2 c6msgs 1 (by decide)
      (fun j hj => by
        have hj0 : j = 0 := by omega
        subst hj0
        rfl) rfl rfl rfl


/-! ## Claim C9 -/

theorem wRowToAtt_fields {r : WAttRow} {a : Attachment}
    (h : wRowToAtt r = .ok a) : a.size = r.size ∧ a.data = r.data := by
  unfold wRowToAtt at h
  rcases hc : r.created_at with _ | cs <;> rw [hc] at h <;>
    rcases hm : r.metadata with _ | jm <;> rw [hm] at h
  · simp [Bind.bind, Except.bind, Pure.pure, Except.pure] at h
    rw [← h]
    exact ⟨rfl, rfl⟩
  · rcases jm with v | raw
    · simp [JsonCol.truthy, JsonCol.loads, Bind.bind, Except.bind,
        Pure.pure, Except.pure] at h
      rw [← h]
      exact ⟨rfl, rfl⟩
    · by_cases hraw : raw = "" <;>
        simp [hraw, JsonCol.truthy, JsonCol.loads, Bind.bind, Except.bind,
          Pure.pure, Except.pure, throw, throwThe, MonadExceptOf.throw] at h <;>
        (rw [← h]; exact ⟨rfl, rfl⟩)
  · by_cases hcs : cs = "" <;>
      simp [hcs, Bind.bind, Except.bind, Pure.pure, Except.pure] at h <;>
      (rw [← h]; exact ⟨rfl, rfl⟩)
  · rcases jm with v | raw
    · by_cases hcs : cs = "" <;>
        simp [hcs, JsonCol.truthy, JsonCol.loads, Bind.bind, Except.bind,
          Pure.pure, Except.pure] at h <;>
        (rw [← h]; exact ⟨rfl, rfl⟩)
    · by_cases hcs : cs = "" <;> by_cases hraw : raw = "" <;>
        simp [hcs, hraw, JsonCol.truthy, JsonCol.loads, Bind.bind,
          Except.bind, Pure.pure, Except.pure, throw, throwThe,
          MonadExceptOf.throw] at h <;>
        (rw [← h]; exact ⟨rfl, rfl⟩)

theorem altRowToAtt_fields (r : AltAttRow) :
    (altRowToAtt r).size = r.size ∧ (altRowToAtt r).data = r.data := by
  unfold altRowToAtt
  constructor <;> (split <;> (try split_ifs) <;> (try split) <;> rfl)

theorem mapM_wRowToAtt_sizes : ∀ (rows : List WAttRow) (out : List Attachment),
    rows.mapM wRowToAtt = .ok out →
    out.map (fun a => (a.size, a.data)) =
      rows.map (fun r => (r.size, r.data)) := by
  intro rows
  induction rows with
  | nil =>
    intro out h
    simp [List.mapM, List.mapM.loop, Pure.pure, Except.pure] at h
    subst h
    rfl
  | cons r rest ih =>
    intro out h
    rw [List.mapM_cons] at h
    rcases hr : wRowToAtt r with e | a
    · rw [hr] at h
      simp [Bind.bind, Except.bind] at h
    · rw [hr] at h
      simp only [Bind.bind, Except.bind] at h
      rcases hrest : rest.mapM wRowToAtt with e2 | l2
      · rw [hrest] at h
        simp [Bind.bind, Except.bind] at h
      · rw [hrest] at h
        simp only [Bind.bind, Except.bind, Pure.pure, Except.pure] at h
        cases h
        rcases wRowToAtt_fields hr with ⟨h1, h2⟩
        simp [h1, h2, ih l2 hrest]

/-- **C9 (amended)**: neither the writer nor the parser checks or
enforces `size = len(data)`.  `write` accepts attachments with any
`size`; both the writer and both read paths pass `size` and `data`
through unchanged, so the equality holds on output exactly when the
producer ensured it on input. -/
theorem C9_size_passthrough_amended :
    (∀ (i : Int) (ms : List WMsgRow) (atts : List WAttRow)
      (out : List Attachment),
      parseAttachments (.wschema i ms atts) = .ok out →
      out.map (fun a => (a.size, a.data)) =
        atts.map (fun r => (r.size, r.data))) ∧
    (∀ (i : Int) (ms : List AltMsgRow) (atts : List AltAttRow)
      (out : List Attachment),
      parseAttachments (.altschema i ms atts) = .ok out →
      out.map (fun a => (a.size, a.data)) =
        atts.map (fun r => (r.size, r.data))) ∧
    (∀ (ms : List MsgD) (oatts : Option (List Attachment)) (st : SqliteStore),
      generateSqlite ms oatts = .ok st →
      ∃ i mr ar, st = .wschema i mr ar ∧
        ar.map (fun r => (r.size, r.data)) =
          (oatts.getD []).map (fun a => (a.size, a.data))) := by
  refine ⟨?_, ?_, ?_⟩
  · intro i ms atts out h
    exact mapM_wRowToAtt_sizes atts out h
  · intro i ms atts out h
    have e : out = atts.map altRowToAtt := (Except.ok.inj h).symm
    subst e
    rw [List.map_map]
    apply List.map_congr_left
    intro r _
    rcases altRowToAtt_fields r with ⟨h1, h2⟩
    simp [Function.comp, h1, h2]
  · intro ms oatts st h
    unfold generateSqlite at h
    dsimp only at h
    split_ifs at h
    refine ⟨SQLITE_APPLICATION_ID, ms.map msgToRow,
      (oatts.getD []).map attToRow, (Except.ok.inj h).symm, ?_⟩
    rw [List.map_map]
    apply List.map_congr_left
    intro a _
    simp [Function.comp, attToRow]

/-- An attachment whose `size` is not `len(data)`. -/
def c9att : Attachment :=
  { id := "a1", filename := "f", content_type := "t", size := 5, data := [] }

def c9msg : MsgD :=
  { id := some "m1", role := some "user", content := some "x",
    timestamp := some "A" }

def c9conv : ConvD :=
  { metadata := some mdMin, messages := some [c9msg],
    attachments := some [c9att] }

/-- **C9, counterexample**: `write` accepts a conversation containing an
attachment whose `size` (5) differs from `len(data)` (0):
`_validate_conversation` never looks at attachments. -/
theorem C9_size_counterexample :
    (writeStream c9conv).toOption.isSome = true ∧
    c9att ∈ c9conv.attachments.getD [] ∧
    c9att.size ≠ (c9att.data.length : Int) := by
  refine ⟨by rfl, by decide, by decide⟩

/-- Witness for C9: parsing a concrete write-schema store returns the
stored (mismatched) size and data verbatim. -/
theorem C9_size_passthrough_amended_witness :
    (([⟨"a1", "f", "t", 5, [], none, none⟩] : List Attachment).map
      (fun a => (a.size, a.data))) =
    (([⟨"a1", "f", "t", 5, [], none, none⟩] : List WAttRow).map
      (fun r => (r.size, r.data))) :=
  C9_size_passthrough_amended.1 SQLITE_APPLICATION_ID []
    [⟨"a1", "f", "t", 5, [], none, none⟩] _ rfl

/-! ## Claim C7 -/

theorem header_expand (a b : Nat) (t : List Nat) :
    writeHeader a b ++ t =
      76 :: 76 :: 77 :: 67 :: 1 :: 0 :: 0 :: 0 :: 1 :: 0 :: 0 :: 0 ::
      (a % 256) :: (a / 256 % 256) :: (a / 256 ^ 2 % 256) :: (a / 256 ^ 3 % 256) ::
      (b % 256) :: (b / 256 % 256) :: (b / 256 ^ 2 % 256) :: (b / 256 ^ 3 % 256) ::
      (b / 256 ^ 4 % 256) :: (b / 256 ^ 5 % 256) :: (b / 256 ^ 6 % 256) :: (b / 256 ^ 7 % 256) ::
      0 :: 0 :: 0 :: 0 :: 0 :: 0 :: 0 :: 0 :: t := by
  simp [writeHeader, le32, le64, LLMC_MAGIC, LLMC_VERSION, LLMC_FORMAT_VERSION]

theorem header_slice12 (a b : Nat) (t : List Nat) :
    ((writeHeader a b ++ t).drop 12).take 4 = le32 a := by
  rw [header_expand]
  rfl

theorem header_slice16 (a b : Nat) (t : List Nat) :
    ((writeHeader a b ++ t).drop 16).take 8 = le64 b := by
  rw [header_expand]
  rfl

def scenarioMeta : RawMeta :=
  [("version", .str "0.1"), ("created_at", .str "2024-01-15T10:30:00Z"),
   ("participants", .strList ["user", "assistant"]), ("title", .str "Test")]

def scenarioMsg1 : MsgD :=
  { id := some "msg_1", role := some "user", content := some "Hello",
    timestamp := some "2024-01-15T10:30:00Z" }

def scenarioMsg2 : MsgD :=
  { id := some "msg_2", role := some "assistant", content := some "Hi",
    timestamp := some "2024-01-15T10:30:05Z" }

/-- The concrete two-message scenario of spec §8. -/
def scenarioConv : ConvD :=
  { metadata := some scenarioMeta,
    messages := some [scenarioMsg1, scenarioMsg2] }

set_option maxRecDepth 10000 in
/-- **C7 (confirmed)**: whenever `write_stream` succeeds, the emitted
header's `metadata_length` field holds exactly the byte length of the
encoded metadata block and its `store_offset` field holds 32 plus that
length; and the §8 two-message scenario parses back with both messages
in original order with matching ids, roles and contents. -/
theorem C7_header_offsets :
    (∀ (c : ConvD) (md : RawMeta) (bs : List Nat), c.metadata = some md →
      writeStream c = .ok bs →
      leNum ((bs.drop 12).take 4) = (yamlEnc md).length ∧
      leNum ((bs.drop 16).take 8) = 32 + (yamlEnc md).length) ∧
    (((writeStream scenarioConv).bind parseStream).map
      (fun c => c.messages.map (fun m => (m.id, m.role, m.content))) =
      .ok [("msg_1", "user", "Hello"), ("msg_2", "assistant", "Hi")]) := by
  constructor
  · intro c md bs hc hw
    unfold writeStream writeStreamE at hw
    rcases hval : validateConversation c with _ | msg
    · simp only [hval] at hw
      rw [hc] at hw
      rcases hm : c.messages with _ | ms
      · rw [hm] at hw
        simp [wrapWrite] at hw
      · rw [hm] at hw
        rcases hg : generateSqlite ms c.attachments with e | st
        · simp [hg, Bind.bind, Except.bind, wrapWrite] at hw
          rcases e with te | um <;> simp [wrapWrite] at hw
        · simp only [hg, Bind.bind, Except.bind] at hw
          split_ifs at hw with hbig
          · simp [wrapWrite, throw, throwThe, MonadExceptOf.throw] at hw
          · simp only [wrapWrite, Pure.pure, Except.pure] at hw
            cases hw
            rw [List.append_assoc, header_slice12, header_slice16,
              leNum_le32 (by omega), leNum_le64 (by omega)]
            exact ⟨rfl, rfl⟩
    · simp only [hval] at hw
      simp [wrapWrite] at hw
  · rfl

set_option maxRecDepth 10000 in
/-- Witness for C7: the scenario conversation's emitted header fields. -/
theorem C7_header_offsets_witness :
    leNum ((((writeStream scenarioConv).toOption.getD []).drop 12).take 4) =
      (yamlEnc scenarioMeta).length ∧
    leNum ((((writeStream scenarioConv).toOption.getD []).drop 16).take 8) =
      32 + (yamlEnc scenarioMeta).length :=
  C7_header_offsets.1 scenarioConv scenarioMeta
    ((writeStream scenarioConv).toOption.getD []) rfl (by rfl)

/-! ## Claim C8 -/

theorem mem_toDigitsCore {b : Nat} (hb : 0 < b) :
    ∀ (fuel n : Nat) (ds : List Char) (c : Char),
      c ∈ Nat.toDigitsCore b fuel n ds →
      c ∈ ds ∨ ∃ m, m < b ∧ c = Nat.digitChar m := by
  intro fuel
  induction fuel with
  | zero =>
    intro n ds c h
    simp only [Nat.toDigitsCore] at h
    exact Or.inl h
  | succ f ih =>
    intro n ds c h
    simp only [Nat.toDigitsCore] at h
    split_ifs at h
    · rcases List.mem_cons.mp h with he | hm
      · exact Or.inr ⟨n % b, Nat.mod_lt _ hb, he⟩
      · exact Or.inl hm
    · rcases ih (n / b) ((n % b).digitChar :: ds) c h with hm | hex
      · rcases List.mem_cons.mp hm with he | hm2
        · exact Or.inr ⟨n % b, Nat.mod_lt _ hb, he⟩
        · exact Or.inl hm2
      · exact Or.inr hex

theorem comma_not_mem_repr (n : Nat) : ',' ∉ (Nat.repr n).data := by
  intro hmem
  have h : ',' ∈ Nat.toDigitsCore 10 (n + 1) n [] := by
    simpa [Nat.repr, Nat.toDigits, List.asString] using hmem
  rcases mem_toDigitsCore (by norm_num) (n + 1) n [] ',' h with h2 | ⟨m, hm, he⟩
  · simp at h2
  · interval_cases m <;> simp [Nat.digitChar] at he

/-- The attachments field computed by the alternate-dialect row loop
(`row[6].split(',')` with the `if aid` filter and `att_` prefixing). -/
def altAttField (atts : List AltAttRow) (r : AltMsgRow) : Option (List String) :=
  match groupConcatIds atts r.key with
  | some cs =>
    if cs.isEmpty then none
    else
      let ids := ((cs.splitOn ',').filter (fun a => ¬ a.isEmpty)).map
        (fun a => "att_" ++ String.mk a)
      if ids.isEmpty then none else some ids
  | none => none

theorem altRowToMsg_id (atts : List AltAttRow) (r : AltMsgRow) :
    (altRowToMsg atts r).id = synthMsgId r.key := by
  unfold altRowToMsg
  split <;> (try split_ifs) <;> (repeat' split) <;> dsimp only <;> (try split_ifs) <;> rfl

theorem altRowToMsg_parent (atts : List AltAttRow) (r : AltMsgRow) :
    (altRowToMsg atts r).parent_id = r.parent.map synthMsgId := by
  unfold altRowToMsg
  split <;> (try split_ifs) <;> (repeat' split) <;> dsimp only <;> (try split_ifs) <;> rfl

theorem altRowToMsg_attachments_eq (atts : List AltAttRow) (r : AltMsgRow) :
    (altRowToMsg atts r).attachments = altAttField atts r := by
  unfold altRowToMsg altAttField
  split <;> (try split_ifs) <;> (repeat' split) <;> dsimp only <;> (try split_ifs) <;> rfl

theorem altRowToAtt_id (r : AltAttRow) :
    (altRowToAtt r).id = "att_" ++ Nat.repr r.key := by
  unfold altRowToAtt
  split <;> (try split_ifs) <;> (repeat' split) <;> dsimp only <;> (try split_ifs) <;> rfl

theorem altAttField_spec {atts : List AltAttRow} {r : AltMsgRow}
    {l : List String} (h : altAttField atts r = some l) :
    ∀ aid ∈ l, ∃ a ∈ atts, a.message_id = r.key ∧
      aid = "att_" ++ Nat.repr a.key := by
  unfold altAttField at h
  rcases hg : groupConcatIds atts r.key with _ | cs <;> rw [hg] at h <;>
    dsimp only at h
  · cases h
  · split_ifs at h with h1 h2
    unfold groupConcatIds at hg
    dsimp only at hg
    split_ifs at hg with hempty
    have hcs := Option.some.inj hg
    intro aid haid
    rw [← Option.some.inj h] at haid
    rw [← hcs] at haid
    rw [List.splitOn_intercalate _ ','
      (by
        intro lc hlc
        rcases List.mem_map.mp hlc with ⟨a, _, ha⟩
        rw [← ha]
        exact comma_not_mem_repr a.key)
      (by simpa [List.isEmpty_iff] using hempty)] at haid
    rcases List.mem_map.mp haid with ⟨lc, hlcf, he1⟩
    have hlc : lc ∈ (atts.filter (fun a => a.message_id == r.key)).map
        (fun a => (Nat.repr a.key).data) := List.mem_of_mem_filter hlcf
    rcases List.mem_map.mp hlc with ⟨a, haf, he2⟩
    exact ⟨a, List.mem_of_mem_filter haf,
      by simpa using List.of_mem_filter haf,
      by rw [← he1, ← he2]⟩

/-- **C8 (confirmed)**: parsing an alternate-dialect store (on which the
surrogate-key query succeeds) yields messages whose string ids are the
surrogate keys under the fixed `msg_` prefix; provided every stored
`parent_id` references an existing message row, each parsed `parent_id`
equals the synthesized id of a parsed message, and every attachment id
listed on a message equals the synthesized id (`att_` prefix) of a
returned attachment. -/
theorem C8_dialect_consistency (i : Int) (msgs : List AltMsgRow)
    (atts : List AltAttRow)
    (hp : ∀ r ∈ msgs, ∀ p, r.parent = some p → ∃ r2 ∈ msgs, r2.key = p) :
    ∃ out oatts,
      parseMessages (.altschema i msgs atts) = .ok out ∧
      parseAttachments (.altschema i msgs atts) = .ok oatts ∧
      (∀ m ∈ out, ∃ r ∈ msgs, m.id = "msg_" ++ Nat.repr r.key) ∧
      (∀ m ∈ out, ∀ pid, m.parent_id = some pid →
        ∃ m2 ∈ out, m2.id = pid) ∧
      (∀ m ∈ out, ∀ l, m.attachments = some l →
        ∀ aid ∈ l, ∃ a ∈ oatts, a.id = aid) := by
  refine ⟨parseMessagesAlt msgs atts, atts.map altRowToAtt, rfl, rfl, ?_, ?_, ?_⟩
  · intro m hm
    rcases List.mem_map.mp hm with ⟨r, hr, he⟩
    refine ⟨r, (List.perm_insertionSort altLe msgs).mem_iff.mp hr, ?_⟩
    rw [← he, altRowToMsg_id]
    rfl
  · intro m hm pid hpid
    rcases List.mem_map.mp hm with ⟨r, hr, he⟩
    rw [← he, altRowToMsg_parent] at hpid
    rcases hpar : r.parent with _ | pk
    · rw [hpar] at hpid
      simp at hpid
    · rw [hpar] at hpid
      have hpe : synthMsgId pk = pid := by simpa using hpid
      rcases hp r ((List.perm_insertionSort altLe msgs).mem_iff.mp hr) pk hpar
        with ⟨r2, hr2, hk⟩
      refine ⟨altRowToMsg atts r2, List.mem_map.mpr
        ⟨r2, (List.perm_insertionSort altLe msgs).mem_iff.mpr hr2, rfl⟩, ?_⟩
      rw [altRowToMsg_id, ← hpe, hk]
  · intro m hm l hl aid haid
    rcases List.mem_map.mp hm with ⟨r, hr, he⟩
    rw [← he, altRowToMsg_attachments_eq] at hl
    rcases altAttField_spec hl aid haid with ⟨a, ha, _, hid⟩
    refine ⟨altRowToAtt a, List.mem_map.mpr ⟨a, ha, rfl⟩, ?_⟩
    rw [altRowToAtt_id, hid]

def c8msgs : List AltMsgRow :=
  [⟨1, 0, "user", "hi", "t1", none, none⟩,
   ⟨2, 1, "assistant", "yo", "t2", some 1, none⟩]

def c8atts : List AltAttRow :=
  [⟨10, "f", "ct", 1, [7], 2, some "ck", none⟩,
   ⟨11, "g", "ct", 1, [8], 2, none, none⟩]

/-- Witness for C8: a concrete two-message, two-attachment
alternate-dialect store is internally consistent after parsing. -/
theorem C8_dialect_consistency_witness :
    ∃ out oatts,
      parseMessages (.altschema SQLITE_APPLICATION_ID c8msgs c8atts) = .ok out ∧
      parseAttachments (.altschema SQLITE_APPLICATION_ID c8msgs c8atts) = .ok oatts ∧
      (∀ m ∈ out, ∃ r ∈ c8msgs, m.id = "msg_" ++ Nat.repr r.key) ∧
      (∀ m ∈ out, ∀ pid, m.parent_id = some pid →
        ∃ m2 ∈ out, m2.id = pid) ∧
      (∀ m ∈ out, ∀ l, m.attachments = some l →
        ∀ aid ∈ l, ∃ a ∈ oatts, a.id = aid) :=
  C8_dialect_consistency SQLITE_APPLICATION_ID c8msgs c8atts (by
    intro r hr p hpar
    fin_cases hr
    · cases hpar
    · refine ⟨⟨1, 0, "user", "hi", "t1", none, none⟩, by decide, ?_⟩
      cases hpar
      rfl)

end LLMC
